import Mathlib

/-!
Shallow embedding of the `sqf` static analyser (files `sqf/parser.py` and
`sqf/analyser.py`) together with the parts of its collaborator modules that
the verified properties need.  Python objects of the `BaseType` hierarchy are
embedded as one inductive type `Ty`; the mutable interpreter state is passed
explicitly; Python exceptions become `Except` values.  Source positions are
not modelled (all properties below are stated modulo position).
-/

namespace SQF

/-- The closed universe of token / tree node kinds produced by the parser and
consumed by the analyser (from `sqf.types`, `sqf.parser_types` and
`sqf.interpreter_types`; the class hierarchy is flattened into one sum). -/
inductive Ty where
  | space : Ty
  | tab : Ty
  | endOfLine (s : String) : Ty
  | brokenEndOfLine : Ty
  | endOfFile : Ty
  | comment (s : String) : Ty
  | strLit (s : String) : Ty
  | boolean (b : Bool) : Ty
  | number (n : Int) : Ty
  | preproc (s : String) : Ty
  | nsTok (s : String) : Ty
  | keyword (s : String) : Ty
  | varT (s : String) : Ty
  | statement (tokens : List Ty) (ending : String) (parenthesis : Bool) : Ty
  | code (tokens : List Ty) : Ty
  | arr (tokens : List Ty) : Ty
  | file (tokens : List Ty) : Ty
  | defineStatement (tokens : List Ty) (name : String) (expr : List Ty)
      (args : List String) (ending : String) : Ty
  | defineResult (tokens : List Ty) (defName : String) (expr : Ty) : Ty
  | nothing : Ty
  | privateType (v : Ty) : Ty
  | forType : Ty
  | object : Ty

namespace Ty

mutual

/-- `str()` of a parsed token or tree (canonical textual form; used by the
parser's macro table and by the analyser as key of the unexecuted-code set). -/
def render : Ty → String
  | .space => " "
  | .tab => "\t"
  | .endOfLine s => s
  | .brokenEndOfLine => "\\\n"
  | .endOfFile => ""
  | .comment s => s
  | .strLit s => s
  | .boolean b => if b then "true" else "false"
  | .number n => toString n
  | .preproc s => s
  | .nsTok s => s
  | .keyword s => s
  | .varT s => s
  | .statement ts e p =>
      (if p then "(" else "") ++ renderList ts ++ (if p then ")" else "") ++ e
  | .code ts => "\x7b" ++ renderList ts ++ "\x7d"
  | .arr ts => "[" ++ renderList ts ++ "]"
  | .file ts => renderList ts
  | .defineStatement ts _ _ _ e => renderList ts ++ e
  | .defineResult ts _ _ => renderList ts
  | .nothing => ""
  | .privateType v => render v
  | .forType => ""
  | .object => ""

/-- `str()` of a token sequence (concatenation, as in `BaseTypeContainer`). -/
def renderList : List Ty → String
  | [] => ""
  | t :: ts => render t ++ renderList ts

end

/-- A parser-only token (whitespace, comment, end markers): the Python
`ParserType` test used by `base_tokens` and `_analyze_define`. -/
def isParserType : Ty → Bool
  | .space | .tab | .endOfLine _ | .brokenEndOfLine | .endOfFile | .comment _ => true
  | _ => false

end Ty

mutual

/-- Structural (position-free) equality of tokens/trees, the model of the
`BaseType.__eq__` comparison; used for list membership tests in the analyser
and to obtain decidable equality for concrete evaluation. -/
def Ty.beq : Ty → Ty → Bool
  | .space, .space => true
  | .tab, .tab => true
  | .endOfLine s, .endOfLine t => s == t
  | .brokenEndOfLine, .brokenEndOfLine => true
  | .endOfFile, .endOfFile => true
  | .comment s, .comment t => s == t
  | .strLit s, .strLit t => s == t
  | .boolean a, .boolean b => a == b
  | .number a, .number b => a == b
  | .preproc s, .preproc t => s == t
  | .nsTok s, .nsTok t => s == t
  | .keyword s, .keyword t => s == t
  | .varT s, .varT t => s == t
  | .statement ts e p, .statement ts' e' p' => Ty.beqList ts ts' && e == e' && p == p'
  | .code ts, .code ts' => Ty.beqList ts ts'
  | .arr ts, .arr ts' => Ty.beqList ts ts'
  | .file ts, .file ts' => Ty.beqList ts ts'
  | .defineStatement ts n e a endg, .defineStatement ts' n' e' a' endg' =>
      Ty.beqList ts ts' && n == n' && Ty.beqList e e' && a == a' && endg == endg'
  | .defineResult ts n e, .defineResult ts' n' e' =>
      Ty.beqList ts ts' && n == n' && Ty.beq e e'
  | .nothing, .nothing => true
  | .privateType v, .privateType w => Ty.beq v w
  | .forType, .forType => true
  | .object, .object => true
  | _, _ => false

/-- Structural equality of token sequences. -/
def Ty.beqList : List Ty → List Ty → Bool
  | [], [] => true
  | a :: as, b :: bs => Ty.beq a b && Ty.beqList as bs
  | _, _ => false
end

mutual

theorem Ty.beq_refl : ∀ a : Ty, Ty.beq a a = true
  | .space => rfl
  | .tab => rfl
  | .endOfLine s => by show (s == s) = true; simp
  | .brokenEndOfLine => rfl
  | .endOfFile => rfl
  | .comment s => by show (s == s) = true; simp
  | .strLit s => by show (s == s) = true; simp
  | .boolean b => by show (b == b) = true; simp
  | .number n => by show (n == n) = true; simp
  | .preproc s => by show (s == s) = true; simp
  | .nsTok s => by show (s == s) = true; simp
  | .keyword s => by show (s == s) = true; simp
  | .varT s => by show (s == s) = true; simp
  | .statement ts e p => by
      show (Ty.beqList ts ts && e == e && p == p) = true
      simp [Ty.beqList_refl ts]
  | .code ts => Ty.beqList_refl ts
  | .arr ts => Ty.beqList_refl ts
  | .file ts => Ty.beqList_refl ts
  | .defineStatement ts n e a endg => by
      show (Ty.beqList ts ts && n == n && Ty.beqList e e && a == a && endg == endg) = true
      simp [Ty.beqList_refl ts, Ty.beqList_refl e]
  | .defineResult ts n e => by
      show (Ty.beqList ts ts && n == n && Ty.beq e e) = true
      simp [Ty.beqList_refl ts, Ty.beq_refl e]
  | .nothing => rfl
  | .privateType v => Ty.beq_refl v
  | .forType => rfl
  | .object => rfl

theorem Ty.beqList_refl : ∀ as : List Ty, Ty.beqList as as = true
  | [] => rfl
  | a :: as => by
      show (Ty.beq a a && Ty.beqList as as) = true
      simp [Ty.beq_refl a, Ty.beqList_refl as]

end

/-- Soundness of `Ty.beq`, by strong induction on size (the nested
inductive blocks a derived `DecidableEq`). -/
theorem Ty.eq_of_beq_sized :
    ∀ n : Nat,
      (∀ a b : Ty, sizeOf a ≤ n → Ty.beq a b = true → a = b) ∧
      (∀ as bs : List Ty, sizeOf as ≤ n → Ty.beqList as bs = true → as = bs) := by
  intro n
  induction n using Nat.strong_induction_on with
  | _ n IH =>
    constructor
    · intro a b hle h
      cases a <;> cases b <;>
        try (exact Bool.noConfusion h)
      case space.space => rfl
      case tab.tab => rfl
      case brokenEndOfLine.brokenEndOfLine => rfl
      case endOfFile.endOfFile => rfl
      case nothing.nothing => rfl
      case forType.forType => rfl
      case object.object => rfl
      case endOfLine.endOfLine s t =>
        have h' : (s == t) = true := h
        rw [show s = t from by simpa using h']
      case comment.comment s t =>
        have h' : (s == t) = true := h
        rw [show s = t from by simpa using h']
      case strLit.strLit s t =>
        have h' : (s == t) = true := h
        rw [show s = t from by simpa using h']
      case boolean.boolean s t =>
        have h' : (s == t) = true := h
        rw [show s = t from by simpa using h']
      case number.number s t =>
        have h' : (s == t) = true := h
        rw [show s = t from by simpa using h']
      case preproc.preproc s t =>
        have h' : (s == t) = true := h
        rw [show s = t from by simpa using h']
      case nsTok.nsTok s t =>
        have h' : (s == t) = true := h
        rw [show s = t from by simpa using h']
      case keyword.keyword s t =>
        have h' : (s == t) = true := h
        rw [show s = t from by simpa using h']
      case varT.varT s t =>
        have h' : (s == t) = true := h
        rw [show s = t from by simpa using h']
      case statement.statement ts e p ts' e' p' =>
        have h' : (Ty.beqList ts ts' && e == e' && p == p') = true := h
        simp only [Bool.and_eq_true, beq_iff_eq] at h'
        obtain ⟨⟨h1, h2⟩, h3⟩ := h'
        simp only [Ty.statement.sizeOf_spec] at hle
        have e1 := (IH (sizeOf ts) (by omega)).2 ts ts' (le_refl _) h1
        rw [e1, h2, h3]
      case code.code ts ts' =>
        have h' : Ty.beqList ts ts' = true := h
        simp only [Ty.code.sizeOf_spec] at hle
        have e1 := (IH (sizeOf ts) (by omega)).2 ts ts' (le_refl _) h'
        rw [e1]
      case arr.arr ts ts' =>
        have h' : Ty.beqList ts ts' = true := h
        simp only [Ty.arr.sizeOf_spec] at hle
        have e1 := (IH (sizeOf ts) (by omega)).2 ts ts' (le_refl _) h'
        rw [e1]
      case file.file ts ts' =>
        have h' : Ty.beqList ts ts' = true := h
        simp only [Ty.file.sizeOf_spec] at hle
        have e1 := (IH (sizeOf ts) (by omega)).2 ts ts' (le_refl _) h'
        rw [e1]
      case defineStatement.defineStatement ts n1 e a endg ts' n1' e' a' endg' =>
        have h' : (Ty.beqList ts ts' && n1 == n1' && Ty.beqList e e' && a == a' &&
            endg == endg') = true := h
        simp only [Bool.and_eq_true, beq_iff_eq] at h'
        obtain ⟨⟨⟨⟨h1, h2⟩, h3⟩, h4⟩, h5⟩ := h'
        simp only [Ty.defineStatement.sizeOf_spec] at hle
        have e1 := (IH (sizeOf ts) (by omega)).2 ts ts' (le_refl _) h1
        have e2 := (IH (sizeOf e) (by omega)).2 e e' (le_refl _) h3
        rw [e1, e2, h2, h4, h5]
      case defineResult.defineResult ts n1 e ts' n1' e' =>
        have h' : (Ty.beqList ts ts' && n1 == n1' && Ty.beq e e') = true := h
        simp only [Bool.and_eq_true, beq_iff_eq] at h'
        obtain ⟨⟨h1, h2⟩, h3⟩ := h'
        simp only [Ty.defineResult.sizeOf_spec] at hle
        have e1 := (IH (sizeOf ts) (by omega)).2 ts ts' (le_refl _) h1
        have e2 := (IH (sizeOf e) (by omega)).1 e e' (le_refl _) h3
        rw [e1, e2, h2]
      case privateType.privateType v w =>
        have h' : Ty.beq v w = true := h
        simp only [Ty.privateType.sizeOf_spec] at hle
        have e1 := (IH (sizeOf v) (by omega)).1 v w (le_refl _) h'
        rw [e1]
    · intro as bs hle h
      cases as with
      | nil =>
          cases bs with
          | nil => rfl
          | cons b bs => exact Bool.noConfusion h
      | cons a as =>
          cases bs with
          | nil => exact Bool.noConfusion h
          | cons b bs =>
              have h' : (Ty.beq a b && Ty.beqList as bs) = true := h
              simp only [Bool.and_eq_true] at h'
              obtain ⟨h1, h2⟩ := h'
              simp only [List.cons.sizeOf_spec] at hle
              have e1 := (IH (sizeOf a) (by omega)).1 a b (le_refl _) h1
              have e2 := (IH (sizeOf as) (by omega)).2 as bs (le_refl _) h2
              rw [e1, e2]

theorem Ty.eq_of_beq {a b : Ty} (h : Ty.beq a b = true) : a = b :=
  (Ty.eq_of_beq_sized (sizeOf a)).1 a b (le_refl _) h



instance : DecidableEq Ty := fun a b =>
  if h : Ty.beq a b = true then .isTrue (Ty.eq_of_beq h)
  else .isFalse (fun he => h (he ▸ Ty.beq_refl a))

instance {e a : Type} [DecidableEq e] [DecidableEq a] : DecidableEq (Except e a)
  | .ok x, .ok y =>
      if h : x = y then .isTrue (by rw [h]) else .isFalse (by intro hc; cases hc; exact h rfl)
  | .error x, .error y =>
      if h : x = y then .isTrue (by rw [h]) else .isFalse (by intro hc; cases hc; exact h rfl)
  | .ok _, .error _ => .isFalse (by intro hc; cases hc)
  | .error _, .ok _ => .isFalse (by intro hc; cases hc)


/-! ## String/comment literal merger (`parse_strings_and_comments`) -/

/-- A fatal parser exception (`SQFParserError` / `SQFParenthesisError`);
positions are not modelled, only the message is kept. -/
inductive PErr where
  | perr (msg : String) : PErr
  | paren (msg : String) : PErr
  | fuelOut : PErr
  deriving DecidableEq, Repr

/-- Output alphabet of the literal merger: raw tokens and assembled
`String` / `Comment` literals. -/
inductive MTok where
  | raw (s : String) : MTok
  | strTok (s : String) : MTok
  | comTok (s : String) : MTok
  deriving DecidableEq, Repr

/-- The merger's scanning mode (`mode` variable of
`parse_strings_and_comments`, with `in_double` folded in separately). -/
inductive Mode where
  | noneM
  | strDouble
  | strSingle
  | comBulk
  | comLine
  deriving DecidableEq, Repr

/-- Recursive core of `parse_strings_and_comments`: the loop over
`all_tokens`, with the current mode, the `in_double` flag, the literal buffer
and the accumulated output.  Lookahead `all_tokens[i+1]` is the head of the
remaining list. -/
def psacGo : List String → Mode → Bool → String → List MTok → Except PErr (List MTok)
  | [], mode, _, buf, acc =>
      if mode = .comLine ∨ mode = .comBulk then .ok (acc ++ [.comTok buf])
      else if mode = .noneM then .ok acc
      else .error (.perr "String is not closed")
  | tok :: rest, mode, inD, buf, acc =>
      match mode with
      | .strDouble =>
          let buf' := buf ++ tok
          if tok = "\"" then
            if inD then psacGo rest .strDouble false buf' acc
            else if rest.head? = some "\"" then psacGo rest .strDouble true buf' acc
            else psacGo rest .noneM false buf' (acc ++ [.strTok buf'])
          else psacGo rest .strDouble inD buf' acc
      | .strSingle =>
          let buf' := buf ++ tok
          if tok = "'" then
            if inD then psacGo rest .strSingle false buf' acc
            else if rest.head? = some "'" then psacGo rest .strSingle true buf' acc
            else psacGo rest .noneM false buf' (acc ++ [.strTok buf'])
          else psacGo rest .strSingle inD buf' acc
      | .comBulk =>
          let buf' := buf ++ tok
          if tok = "*/" then psacGo rest .noneM inD "" (acc ++ [.comTok buf'])
          else psacGo rest .comBulk inD buf' acc
      | .comLine =>
          let buf' := buf ++ tok
          if tok = "\n" ∨ tok = "\r\n" then psacGo rest .noneM inD "" (acc ++ [.comTok buf'])
          else psacGo rest .comLine inD buf' acc
      | .noneM =>
          if tok = "\"" then psacGo rest .strDouble inD tok acc
          else if tok = "'" then psacGo rest .strSingle inD tok acc
          else if tok = "/*" then psacGo rest .comBulk inD tok acc
          else if tok = "//" then psacGo rest .comLine inD tok acc
          else psacGo rest .noneM inD buf (acc ++ [.raw tok])

/-- `parse_strings_and_comments(all_tokens)` (parser.py lines 73-138). -/
def parse_strings_and_comments (all_tokens : List String) : Except PErr (List MTok) :=
  psacGo all_tokens .noneM false "" []

/-- Spec-side literal scanner: only the `(mode, in_double)` state machine of
the merger, with none of the token assembly.  Used to state which inputs end
inside an unterminated literal. -/
def literalStateGo : List String → Mode × Bool → Mode × Bool
  | [], st => st
  | tok :: rest, (mode, inD) =>
      match mode with
      | .strDouble =>
          if tok = "\"" then
            if inD then literalStateGo rest (.strDouble, false)
            else if rest.head? = some "\"" then literalStateGo rest (.strDouble, true)
            else literalStateGo rest (.noneM, false)
          else literalStateGo rest (.strDouble, inD)
      | .strSingle =>
          if tok = "'" then
            if inD then literalStateGo rest (.strSingle, false)
            else if rest.head? = some "'" then literalStateGo rest (.strSingle, true)
            else literalStateGo rest (.noneM, false)
          else literalStateGo rest (.strSingle, inD)
      | .comBulk =>
          if tok = "*/" then literalStateGo rest (.noneM, inD)
          else literalStateGo rest (.comBulk, inD)
      | .comLine =>
          if tok = "\n" ∨ tok = "\r\n" then literalStateGo rest (.noneM, inD)
          else literalStateGo rest (.comLine, inD)
      | .noneM =>
          if tok = "\"" then literalStateGo rest (.strDouble, inD)
          else if tok = "'" then literalStateGo rest (.strSingle, inD)
          else if tok = "/*" then literalStateGo rest (.comBulk, inD)
          else if tok = "//" then literalStateGo rest (.comLine, inD)
          else literalStateGo rest (.noneM, inD)

/-- Final scanning mode of a raw token sequence. -/
def literalMode (ts : List String) : Mode :=
  (literalStateGo ts (.noneM, false)).1

/-- The merger fails exactly on the string modes; in comment modes the
pending comment is flushed; in neutral mode it succeeds. -/
theorem psacGo_characterization (ts : List String) :
    ∀ mode inD buf acc,
      (((psacGo ts mode inD buf acc).isOk = true) ↔
        ¬((literalStateGo ts (mode, inD)).1 = .strDouble ∨
          (literalStateGo ts (mode, inD)).1 = .strSingle)) ∧
      (((psacGo ts mode inD buf acc) = .error (.perr "String is not closed")) ↔
        ((literalStateGo ts (mode, inD)).1 = .strDouble ∨
          (literalStateGo ts (mode, inD)).1 = .strSingle)) ∧
      (((literalStateGo ts (mode, inD)).1 = .comLine ∨
          (literalStateGo ts (mode, inD)).1 = .comBulk) →
        ∃ l s, psacGo ts mode inD buf acc = .ok (l ++ [.comTok s])) := by
  induction ts with
  | nil =>
      intro mode inD buf acc
      cases mode <;>
        simp [psacGo, literalStateGo, Except.isOk, Except.toBool] <;>
        exact ⟨acc, buf, rfl⟩
  | cons tok rest ih =>
      intro mode inD buf acc
      cases mode <;> simp only [psacGo, literalStateGo] <;>
        split <;> (try split) <;> (try split) <;> (try split) <;>
        exact ih _ _ _ _

/-! ## Block parser (`parse_block` and helpers) -/

/-- Modelled from the spec: `sqf.keywords.PREPROCESSORS` is not among the
sources; the spec speaks of "one depth counter per directive kind" and names
`#define` and `#include` as the directive statements that are handled. -/
def PREPROCESSORS : List String :=
  ["#define", "#include", "#ifdef", "#ifndef", "#undef", "#else", "#endif"]

/-- The `lvls` dictionary of `parse_block`: one depth counter per bracket
kind (`[]`, `()`, `\x7b\x7d`) and one per preprocessor directive kind. -/
structure Lvls where
  sq : Nat
  par : Nat
  br : Nat
  pre : List (String × Nat)
  deriving DecidableEq, Repr

namespace Lvls

/-- The default `initial_lvls` built at the top of `parse_block`. -/
def init : Lvls := ⟨0, 0, 0, PREPROCESSORS.map (fun s => (s, 0))⟩

/-- `lvls[x]` for a directive kind. -/
def preGet (l : Lvls) (s : String) : Nat := ((l.pre.lookup s).getD 0)

/-- `lvls[x] += 1` for a directive kind. -/
def preInc (l : Lvls) (s : String) : Lvls :=
  { l with pre := l.pre.map (fun p => if p.1 = s then (p.1, p.2 + 1) else p) }

/-- `all(lvls[x] == 0 for x in PREPROCESSORS)`. -/
def allPreZero (l : Lvls) : Bool := PREPROCESSORS.all (fun s => l.preGet s = 0)

end Lvls

namespace Ty

/-- `token == Keyword(s)`. -/
def isKw : Ty → String → Bool
  | .keyword k, s => k = s
  | _, _ => false

/-- `type(token) in (EndOfLine, Comment, EndOfFile)`. -/
def isEolComEof : Ty → Bool
  | .endOfLine _ | .comment _ | .endOfFile => true
  | _ => false

/-- `type(token) == EndOfFile`. -/
def isEof : Ty → Bool
  | .endOfFile => true
  | _ => false

/-- `isinstance(token, Keyword) and token.value in PREPROCESSORS`
(`Preprocessor` is a `Keyword` subclass). -/
def isDirective : Ty → Bool
  | .keyword s | .preproc s => PREPROCESSORS.contains s
  | _ => false

/-- The `args` field of a `DefineStatement`. -/
def defArgs : Ty → List String
  | .defineStatement _ _ _ a _ => a
  | _ => []

/-- The `expression` field of a `DefineStatement`. -/
def defExpr : Ty → List Ty
  | .defineStatement _ _ e _ _ => e
  | _ => []

/-- The `variable_name` field of a `DefineStatement`. -/
def defVarName : Ty → String
  | .defineStatement _ n _ _ _ => n
  | _ => ""

end Ty

/-- The macro table: `defaultdict(dict)` keyed by macro name, then by arity;
association lists keep Python's dict insertion order. -/
abbrev Defines := List (String × List (Nat × Ty))

/-- `defines[name][arity] = define_statement` (insert-or-update keeping
insertion order, like a Python dict). -/
def dInsert (d : Defines) (name : String) (arity : Nat) (v : Ty) : Defines :=
  match d with
  | [] => [(name, [(arity, v)])]
  | (k, entry) :: rest =>
      if k = name then
        (k, if entry.any (fun p => p.1 = arity)
            then entry.map (fun p => if p.1 = arity then (arity, v) else p)
            else entry ++ [(arity, v)]) :: rest
      else (k, entry) :: dInsert rest name arity v

/-- Modelled from the spec: `sqf.parser_exp.parse_exp` (the
operator-precedence expression regrouper) is not among the sources; per the
spec a `Statement` is an "ordered sequence of tokens/sub-statements", so it
is modelled as wrapping the token run in a `Statement` without reordering. -/
def parse_exp (tokens : List Ty) : Ty := .statement tokens "" false

/-- `_analyze_tokens(tokens)` (parser.py lines 141-153). -/
def _analyze_tokens (tokens : List Ty) : Ty :=
  let p : List Ty × String :=
    match tokens.getLast? with
    | some (.keyword s) => if s = ";" ∨ s = "," then (tokens.dropLast, s) else (tokens, "")
    | _ => (tokens, "")
  match parse_exp p.1 with
  | .statement ts _ paren => .statement ts p.2 paren
  | s => .statement [s] p.2 false

/-- Loop of `_analyze_array_tokens`: `part` is the current element's token
run, `result` the analysed elements, `firstComma` the `first_comma_found`
flag. -/
def arrayGo : List Ty → List Ty → List Ty → Bool → Except PErr (List Ty)
  | [], part, result, firstComma =>
      if part.isEmpty ∧ firstComma then
        .error (.perr "Array cannot have an empty element")
      else .ok (result ++ [_analyze_tokens part])
  | t :: ts, part, result, firstComma =>
      if t.isKw "," then
        if part.isEmpty then .error (.perr "Array cannot have an empty element")
        else arrayGo ts [] (result ++ [_analyze_tokens part]) true
      else arrayGo ts (part ++ [t]) result firstComma

/-- `_analyze_array_tokens(tokens, tokens_until)` (parser.py lines 156-175);
the `tokens_until` argument only feeds the error position, which is not
modelled.  The final `elif tokens:` append of the trailing `part` happens in
`arrayGo`'s base case, which is only reached with nonempty input. -/
def _analyze_array_tokens (tokens : List Ty) : Except PErr (List Ty) :=
  match tokens with
  | [] => .ok []
  | _ :: _ => arrayGo tokens [] [] false

/-- `str(...)[1:-1].split(',')` of the argument-list statement, over the
character list (so that concrete parses evaluate definitionally). -/
def splitArgsChars : List Char → List Char → List String
  | [], cur => [String.mk cur.reverse]
  | c :: cs, cur =>
      if c = ',' then String.mk cur.reverse :: splitArgsChars cs []
      else splitArgsChars cs (c :: cur)

/-- `_analyze_define(tokens)` (parser.py lines 178-199). -/
def _analyze_define (tokens : List Ty) : Except PErr Ty :=
  let p : List Ty × String :=
    match tokens.getLast? with
    | some (.endOfLine s) => (tokens.dropLast, s)
    | some (.comment s) => (tokens.dropLast, s)
    | _ => (tokens, "")
  let toks := p.1
  let ending := p.2
  let validIdx := (List.range toks.length).filter
    (fun i => !(toks.getD i .nothing).isParserType)
  if validIdx.length < 2 then
    .error (.perr "#define needs at least one argument")
  else
    let varName := (toks.getD (validIdx.getD 1 0) .nothing).render
    if validIdx.length = 2 then
      .ok (.defineStatement toks varName [] [] ending)
    else
      let i2 := validIdx.getD 2 0
      match toks.getD i2 .nothing with
      | .statement sts se true =>
          if validIdx.getD 1 0 + 1 = i2 then
            if validIdx.length < 4 then
              -- `tokens[valid_indexes[3]:]` raises IndexError when absent
              .error (.perr "IndexError")
            else
              let argsStr := (Ty.statement sts se true).render
              let args := splitArgsChars (argsStr.data.drop 1).dropLast []
              let remaining := toks.drop (validIdx.getD 3 0)
              .ok (.defineStatement toks varName remaining args ending)
          else
            .ok (.defineStatement toks varName (toks.drop i2) [] ending)
      | _ =>
          .ok (.defineStatement toks varName (toks.drop i2) [] ending)

mutual

/-- `replace_in_expression(expression, args, arg_indexes, all_tokens)`
(parser.py lines 53-70). -/
def replace_in_expression : List Ty → List String → List Nat → List Ty → List Ty
  | [], _, _, _ => []
  | t :: ts, args, idxs, all =>
      replace_in_token t args idxs all :: replace_in_expression ts args idxs all

/-- One iteration of `replace_in_expression`: recurse into a `Statement`,
otherwise substitute the matching argument's token, if any. -/
def replace_in_token : Ty → List String → List Nat → List Ty → Ty
  | .statement sub e paren, args, idxs, all =>
      .statement (replace_in_expression sub args idxs all) e paren
  | tok, args, idxs, all =>
      match (args.zip idxs).find? (fun p => tok.render = p.1) with
      | some p => all.getD p.2 .nothing
      | none => tok

end

/-- Inner loop of the macro-invocation matcher (`for arg_i in
range(arg_number + 1)`, parser.py lines 227-242): scans for
`name(arg, arg, ..., arg)` and collects the argument token indexes.  Returns
whether the loop ran to completion (the `for ... else` case) and the
accumulated `arg_indexes` (which, as in the source, keeps entries appended by
earlier failed attempts).  The first argument is the remaining iteration
count (initially `arg_number + 1`), the second the current `arg_i`. -/
def tryArityGo (all : List Ty) (i argNumber : Nat) : Nat → Nat → List Nat → Bool × List Nat
  | 0, _, acc => (true, acc)
  | k + 1, argI, acc =>
      let index := i + 2 + 2 * argI - (if argI = argNumber then 1 else 0)
      if all.length ≤ index then (false, acc)
      else
        let argStr := (all.getD index .nothing).render
        if argI = argNumber ∧ argStr ≠ ")" then (false, acc)
        else
          tryArityGo all i argNumber k (argI + 1)
            (if argI = argNumber then acc else acc ++ [index])

/-- Outer loop over the registered arities of a macro (`for arg_number in
possible_args`, parser.py lines 223-246). -/
def tryArities (all : List Ty) (i : Nat) : List (Nat × Ty) → List Nat → Option (Ty × List Nat)
  | [], _ => none
  | (n, ds) :: rest, acc =>
      if n = 0 then tryArities all i rest acc
      else
        match tryArityGo all i n (n + 1) 0 acc with
        | (true, acc') => some (ds, acc')
        | (false, acc') => tryArities all i rest acc'

/-- The macro-invocation matcher (parser.py lines 219-250): `none` when the
token is no registered macro call (`found` stays false). -/
def tryDefine (all : List Ty) (i : Nat) (token : Ty) (defines : Defines) : Option (Ty × List Nat) :=
  match defines.lookup token.render with
  | none => none
  | some entry =>
      if i + 1 < all.length ∧ (all.getD (i + 1) Ty.nothing).render = "(" then
        tryArities all i entry []
      else
        match entry.lookup 0 with
        | some ds => some (ds, [])
        | none => none

/-- The `while` loop of `parse_block` (parser.py lines 202-377), as a
fuel-indexed recursion: `all`/`start` are the function arguments, `i`,
`lvls`, `tokens` and `statements` the loop state, `stopBoth` is
`stop_statement == 'both'`.  Recursive `parse_block` calls open a fresh loop
with empty `tokens`/`statements`.  Each loop step and each sub-parse costs
one unit of fuel; `fuelOut` models non-termination, never raised by the
source. -/
def parse_block_loop : Nat → List Ty → Nat → Nat → Lvls → Bool → Defines →
    List Ty → List Ty → Except PErr (Ty × Nat × Defines)
  | 0, _, _, _, _, _, _, _, _ => .error .fuelOut
  | fuel + 1, all, start, i, lvls, stopBoth, defines, tokens, statements =>
    match all[i]? with
    | none =>
        -- lines 370-377: end of input
        if lvls.sq ≠ 0 then .error (.paren "Parenthesis \"[\" not closed")
        else if lvls.par ≠ 0 then .error (.paren "Parenthesis \"(\" not closed")
        else if lvls.br ≠ 0 then .error (.paren "Parenthesis \"\x7b\" not closed")
        else
          let statements := if tokens.isEmpty then statements
            else statements ++ [_analyze_tokens tokens]
          .ok (.statement statements "" false, i - start, defines)
    | some token =>
        match tryDefine all i token defines with
        | some (ds, argIdxs) =>
            -- lines 252-285: macro expansion and re-parse
            let argNumber := ds.defArgs.length
            let extra := 1 + (if argNumber ≠ 0 then 1 else 0) + 2 * argNumber
            let replaced := (all.drop i).take extra
            let replacing := replace_in_expression ds.defExpr ds.defArgs argIdxs all
            let newStart := i - tokens.length
            let newAll := all.take newStart ++ tokens ++ replacing ++ all.drop (i + extra)
            match parse_block_loop fuel newAll newStart newStart lvls stopBoth defines [] [] with
            | .error er => .error er
            | .ok (expr0, size, d) =>
                let ott : Int := (replaced.length : Int) - replacing.length + size
                let originalTokens := (all.drop newStart).take ott.toNat
                let expr1 := match expr0 with
                  | .statement ts _ _ => ts.headD (.statement ts "" false)
                  | e => e
                let q : List Ty × Int :=
                  match originalTokens.getLast? with
                  | some t => if t.isEolComEof then (originalTokens.dropLast, ott - 1)
                              else (originalTokens, ott)
                  | none => (originalTokens, ott)
                let dr := Ty.defineResult q.1 ds.defVarName expr1
                -- `i += original_tokens_taken - len(tokens) - 1` and the
                -- final `i += 1` (Python int arithmetic; clamped at 0)
                let iNew : Nat := ((i : Int) + q.2 - tokens.length).toNat
                parse_block_loop fuel all start iNew lvls stopBoth d [] (statements ++ [dr])
        | none =>
          if token.isKw "[" then
            match parse_block_loop fuel all (i + 1) (i + 1)
                { lvls with sq := lvls.sq + 1 } false defines [] [] with
            | .ok (e, size, d) =>
                parse_block_loop fuel all start (i + size + 2) lvls stopBoth d
                  (tokens ++ [e]) statements
            | .error er => .error er
          else if token.isKw "(" then
            match parse_block_loop fuel all (i + 1) (i + 1)
                { lvls with par := lvls.par + 1 } stopBoth defines [] [] with
            | .ok (e, size, d) =>
                parse_block_loop fuel all start (i + size + 2) lvls stopBoth d
                  (tokens ++ [e]) statements
            | .error er => .error er
          else if token.isKw "\x7b" then
            match parse_block_loop fuel all (i + 1) (i + 1)
                { lvls with br := lvls.br + 1 } stopBoth defines [] [] with
            | .ok (e, size, d) =>
                parse_block_loop fuel all start (i + size + 2) lvls stopBoth d
                  (tokens ++ [e]) statements
            | .error er => .error er
          else if token.isKw "]" then
            if lvls.sq = 0 then
              .error (.paren "Trying to close right parenthesis without them opened.")
            else if statements.isEmpty then
              match _analyze_array_tokens tokens with
              | .ok elems => .ok (.arr elems, i - start, defines)
              | .error er => .error er
            else
              match statements.head? with
              | some (.defineResult dtoks dn dexp) =>
                  match _analyze_array_tokens dtoks with
                  | .ok elems =>
                      .ok (.defineResult [.arr elems] dn dexp, i - start, defines)
                  | .error er => .error er
              | _ =>
                  .error (.perr ("A statement " ++
                    (Ty.statement statements "" false).render ++
                    " cannot be in an array"))
          else if token.isKw ")" then
            if lvls.par = 0 then
              .error (.paren "Trying to close parenthesis without opened parenthesis.")
            else
              let statements := if tokens.isEmpty then statements
                else statements ++ [_analyze_tokens tokens]
              .ok (.statement statements "" true, i - start, defines)
          else if token.isKw "\x7d" then
            if lvls.br = 0 then
              .error (.paren "Trying to close brackets without opened brackets.")
            else
              let statements := if tokens.isEmpty then statements
                else statements ++ [_analyze_tokens tokens]
              .ok (.code statements, i - start, defines)
          else if (lvls.allPreZero ∧ stopBoth ∧ (token.isKw ";" ∨ token.isKw ",")) ∨
              (¬stopBoth ∧ token.isKw ";") then
            -- lines 335-340: statement separator terminates the token run
            parse_block_loop fuel all start (i + 1) lvls stopBoth defines []
              (statements ++ [_analyze_tokens (tokens ++ [token])])
          else if token.isDirective then
            -- lines 341-353: a preprocessor token opens a directive sub-parse
            let statements := if tokens.isEmpty then statements
              else statements ++ [_analyze_tokens tokens]
            match parse_block_loop fuel all (i + 1) (i + 1)
                (lvls.preInc ((match token with
                  | .keyword s => s | .preproc s => s | _ => ""))) stopBoth defines [] [] with
            | .ok (e, size, d) =>
                parse_block_loop fuel all start (i + size + 2) lvls stopBoth d []
                  (statements ++ [e])
            | .error er => .error er
          else if token.isEolComEof ∧ ¬lvls.allPreZero then
            -- lines 354-365: end of a directive line
            let trigger := all.getD (start - 1) Ty.nothing
            let toks := trigger :: tokens ++ (if token.isEof then [] else [token])
            match trigger with
            | .preproc s =>
                if s = "#define" then
                  match _analyze_define toks with
                  | .ok ds =>
                      .ok (.statement (statements ++ [ds]) "" false, i - start,
                        dInsert defines ds.defVarName ds.defArgs.length ds)
                  | .error er => .error er
                else
                  .ok (.statement (statements ++ [_analyze_tokens toks]) "" false,
                    i - start, defines)
            | _ =>
                .ok (.statement (statements ++ [_analyze_tokens toks]) "" false,
                  i - start, defines)
          else
            let tokens := if token.isEof then tokens else tokens ++ [token]
            parse_block_loop fuel all start (i + 1) lvls stopBoth defines tokens statements

/-- `parse_block(all_tokens, ..., start, initial_lvls, stop_statement,
defines)`: a fresh loop with empty `tokens`/`statements`. -/
def parse_block (fuel : Nat) (all : List Ty) (start : Nat) (lvls : Lvls)
    (stopBoth : Bool) (defines : Defines) : Except PErr (Ty × Nat × Defines) :=
  parse_block_loop fuel all start start lvls stopBoth defines [] []

/-- `parse(script)` minus the external tokenizer: run the block parser on an
already-identified token stream with `EndOfFile` appended (parser.py lines
380-386; `set_position` is not modelled). -/
def parseTokens (fuel : Nat) (ts : List Ty) : Except PErr Ty :=
  (parse_block fuel (ts ++ [.endOfFile]) 0 .init true []).map (fun r => r.1)

/-! ## Bracket depth-counter abstraction of `parse_block` -/

/-- The pure bracket depth-counter scan underlying `parse_block`: the same
loop and frame recursion with the identical fuel discipline, stripped of all
token and statement bookkeeping (and of the macro and directive branches,
which are dead on directive-free input with an empty macro table).  On frame
exit it returns `i - start`. -/
def scan_loop : Nat → List Ty → Nat → Nat → Lvls → Bool → Except PErr Nat
  | 0, _, _, _, _, _ => .error .fuelOut
  | fuel + 1, all, start, i, lvls, stopBoth =>
    match all[i]? with
    | none =>
        if lvls.sq ≠ 0 then .error (.paren "Parenthesis \"[\" not closed")
        else if lvls.par ≠ 0 then .error (.paren "Parenthesis \"(\" not closed")
        else if lvls.br ≠ 0 then .error (.paren "Parenthesis \"\x7b\" not closed")
        else .ok (i - start)
    | some token =>
        if token.isKw "[" then
          match scan_loop fuel all (i + 1) (i + 1) { lvls with sq := lvls.sq + 1 } false with
          | .ok size => scan_loop fuel all start (i + size + 2) lvls stopBoth
          | .error er => .error er
        else if token.isKw "(" then
          match scan_loop fuel all (i + 1) (i + 1) { lvls with par := lvls.par + 1 } stopBoth with
          | .ok size => scan_loop fuel all start (i + size + 2) lvls stopBoth
          | .error er => .error er
        else if token.isKw "\x7b" then
          match scan_loop fuel all (i + 1) (i + 1) { lvls with br := lvls.br + 1 } stopBoth with
          | .ok size => scan_loop fuel all start (i + size + 2) lvls stopBoth
          | .error er => .error er
        else if token.isKw "]" then
          if lvls.sq = 0 then
            .error (.paren "Trying to close right parenthesis without them opened.")
          else .ok (i - start)
        else if token.isKw ")" then
          if lvls.par = 0 then
            .error (.paren "Trying to close parenthesis without opened parenthesis.")
          else .ok (i - start)
        else if token.isKw "\x7d" then
          if lvls.br = 0 then
            .error (.paren "Trying to close brackets without opened brackets.")
          else .ok (i - start)
        else scan_loop fuel all start (i + 1) lvls stopBoth

/-- A bracket kind: `[]`, `()` or `\x7b\x7d`. -/
inductive BKind where
  | ksq
  | kpar
  | kbr
  deriving DecidableEq, Repr

/-- The opening token of a bracket kind, if any. -/
def openKind : Ty → Option BKind
  | .keyword s =>
      if s = "[" then some .ksq
      else if s = "(" then some .kpar
      else if s = "\x7b" then some .kbr
      else none
  | _ => none

/-- The closing token of a bracket kind, if any. -/
def closeKind : Ty → Option BKind
  | .keyword s =>
      if s = "]" then some .ksq
      else if s = ")" then some .kpar
      else if s = "\x7d" then some .kbr
      else none
  | _ => none

/-- The canonical closing token of a bracket kind. -/
def closeTok : BKind → Ty
  | .ksq => .keyword "]"
  | .kpar => .keyword ")"
  | .kbr => .keyword "\x7d"

/-- Spec-side notion of correctly paired brackets: a Dyck check over the
three bracket kinds with all other tokens transparent, relative to a stack
of currently open kinds. -/
def balancedFrom : List Ty → List BKind → Bool
  | [], stk => stk.isEmpty
  | t :: ts, stk =>
      match openKind t with
      | some k => balancedFrom ts (k :: stk)
      | none =>
          match closeKind t with
          | some k =>
              match stk with
              | [] => false
              | k' :: stk' => if k = k' then balancedFrom ts stk' else false
          | none => balancedFrom ts stk

/-- Each of the three bracket kinds of `w` is correctly paired. -/
def balancedTokens (w : List Ty) : Bool := balancedFrom w []

/-! ## Agreement of `parse_block` with the depth-counter scan -/

theorem Lvls.allPreZero_setSq (l : Lvls) (n : Nat) :
    ({ l with sq := n } : Lvls).allPreZero = l.allPreZero := rfl

theorem Lvls.allPreZero_setPar (l : Lvls) (n : Nat) :
    ({ l with par := n } : Lvls).allPreZero = l.allPreZero := rfl

theorem Lvls.allPreZero_setBr (l : Lvls) (n : Nat) :
    ({ l with br := n } : Lvls).allPreZero = l.allPreZero := rfl

theorem arrayGo_error_perr :
    ∀ ts part res fc er, arrayGo ts part res fc = .error er →
      er = .perr "Array cannot have an empty element" := by
  intro ts
  induction ts with
  | nil =>
      intro part res fc er h
      unfold arrayGo at h
      split at h
      · exact (Except.error.injEq _ _).mp h.symm ▸ rfl
      · exact absurd h (by simp)
  | cons t ts ih =>
      intro part res fc er h
      unfold arrayGo at h
      split at h
      · split at h
        · exact ((Except.error.injEq _ _).mp h).symm
        · exact ih _ _ _ _ h
      · exact ih _ _ _ _ h

theorem analyze_array_error_perr (ts : List Ty) (er : PErr)
    (h : _analyze_array_tokens ts = .error er) :
    er = .perr "Array cannot have an empty element" := by
  unfold _analyze_array_tokens at h
  match ts, h with
  | [], h => exact absurd h (by simp)
  | t :: ts, h => exact arrayGo_error_perr _ _ _ _ _ h

/-- Relation between a `parse_block` outcome and the corresponding
depth-counter scan outcome: on success the scan agrees on the consumed size
(and the macro table is still empty), parenthesis errors and fuel exhaustion
coincide, and non-bracket parser errors carry no scan information. -/
def scanAgrees (p : Except PErr (Ty × Nat × Defines)) (s : Except PErr Nat) : Prop :=
  match p with
  | .ok (_, size, d) => d = [] ∧ s = .ok size
  | .error (.perr _) => True
  | .error (.paren m) => s = .error (.paren m)
  | .error .fuelOut => s = .error .fuelOut

/-- On directive-free input with an empty macro table, `parse_block` and the
depth-counter scan agree: they consume the same number of tokens, raise the
same parenthesis errors and run out of fuel together; only non-bracket
parser errors (arrays, statements) are extra on the parser side. -/
theorem parse_scan_agree :
    ∀ (fuel : Nat) (all : List Ty) (start i : Nat) (lvls : Lvls)
      (stopBoth : Bool) (tokens statements : List Ty),
      (∀ t ∈ all, t.isDirective = false) →
      lvls.allPreZero = true →
      scanAgrees (parse_block_loop fuel all start i lvls stopBoth [] tokens statements)
        (scan_loop fuel all start i lvls stopBoth) := by
  intro fuel
  induction fuel with
  | zero =>
      intro all start i lvls stopBoth tokens statements _ _
      simp [parse_block_loop, scan_loop, scanAgrees]
  | succ fuel ih =>
      intro all start i lvls stopBoth tokens statements hnd hpz
      rw [parse_block_loop, scan_loop]
      cases hT : all[i]? with
      | none =>
          simp only [hT]
          by_cases h1 : lvls.sq ≠ 0
          · simp [h1, scanAgrees]
          · by_cases h2 : lvls.par ≠ 0
            · simp [h1, h2, scanAgrees]
            · by_cases h3 : lvls.br ≠ 0
              · simp [h1, h2, h3, scanAgrees]
              · simp [h1, h2, h3, scanAgrees]
      | some token =>
          simp only [hT]
          have hd : tryDefine all i token [] = none := rfl
          simp only [hd]
          have hdir : token.isDirective = false := hnd token (List.getElem?_mem hT)
          cases h1 : token.isKw "[" with
          | true =>
              simp only [h1, if_pos]
              have H := ih all (i + 1) (i + 1) { lvls with sq := lvls.sq + 1 } false [] []
                hnd (by rw [Lvls.allPreZero_setSq]; exact hpz)
              cases hs : parse_block_loop fuel all (i + 1) (i + 1)
                  { lvls with sq := lvls.sq + 1 } false [] [] [] with
              | ok v =>
                  obtain ⟨e, size, d⟩ := v
                  rw [hs] at H
                  simp only [scanAgrees] at H
                  obtain ⟨hd0, hscan⟩ := H
                  subst hd0
                  rw [hscan]
                  exact ih all start (i + size + 2) lvls stopBoth (tokens ++ [e]) statements hnd hpz
              | error er =>
                  rw [hs] at H
                  cases er with
                  | perr m => simp [scanAgrees]
                  | paren m =>
                      simp only [scanAgrees] at H
                      rw [H]
                      simp [scanAgrees]
                  | fuelOut =>
                      simp only [scanAgrees] at H
                      rw [H]
                      simp [scanAgrees]
          | false =>
          cases h2 : token.isKw "(" with
          | true =>
              simp only [h1, h2, Bool.false_eq_true, if_false, if_pos]
              have H := ih all (i + 1) (i + 1) { lvls with par := lvls.par + 1 } stopBoth [] []
                hnd (by rw [Lvls.allPreZero_setPar]; exact hpz)
              cases hs : parse_block_loop fuel all (i + 1) (i + 1)
                  { lvls with par := lvls.par + 1 } stopBoth [] [] [] with
              | ok v =>
                  obtain ⟨e, size, d⟩ := v
                  rw [hs] at H
                  simp only [scanAgrees] at H
                  obtain ⟨hd0, hscan⟩ := H
                  subst hd0
                  rw [hscan]
                  exact ih all start (i + size + 2) lvls stopBoth (tokens ++ [e]) statements hnd hpz
              | error er =>
                  rw [hs] at H
                  cases er with
                  | perr m => simp [scanAgrees]
                  | paren m =>
                      simp only [scanAgrees] at H
                      rw [H]
                      simp [scanAgrees]
                  | fuelOut =>
                      simp only [scanAgrees] at H
                      rw [H]
                      simp [scanAgrees]
          | false =>
          cases h3 : token.isKw "\x7b" with
          | true =>
              simp only [h1, h2, h3, Bool.false_eq_true, if_false, if_pos]
              have H := ih all (i + 1) (i + 1) { lvls with br := lvls.br + 1 } stopBoth [] []
                hnd (by rw [Lvls.allPreZero_setBr]; exact hpz)
              cases hs : parse_block_loop fuel all (i + 1) (i + 1)
                  { lvls with br := lvls.br + 1 } stopBoth [] [] [] with
              | ok v =>
                  obtain ⟨e, size, d⟩ := v
                  rw [hs] at H
                  simp only [scanAgrees] at H
                  obtain ⟨hd0, hscan⟩ := H
                  subst hd0
                  rw [hscan]
                  exact ih all start (i + size + 2) lvls stopBoth (tokens ++ [e]) statements hnd hpz
              | error er =>
                  rw [hs] at H
                  cases er with
                  | perr m => simp [scanAgrees]
                  | paren m =>
                      simp only [scanAgrees] at H
                      rw [H]
                      simp [scanAgrees]
                  | fuelOut =>
                      simp only [scanAgrees] at H
                      rw [H]
                      simp [scanAgrees]
          | false =>
          cases h4 : token.isKw "]" with
          | true =>
              simp only [h1, h2, h3, h4, Bool.false_eq_true, if_false, if_pos]
              by_cases hz : lvls.sq = 0
              · rw [if_pos hz, if_pos hz]
                simp [scanAgrees]
              · rw [if_neg hz, if_neg hz]
                by_cases hse : statements.isEmpty = true
                · rw [if_pos hse]
                  cases ha : _analyze_array_tokens tokens with
                  | ok elems => simp [scanAgrees]
                  | error er =>
                      have := analyze_array_error_perr _ _ ha
                      subst this
                      simp [scanAgrees]
                · rw [if_neg hse]
                  cases hh : statements.head? with
                  | none => simp [scanAgrees]
                  | some s0 =>
                      cases s0 <;> try (simp [scanAgrees])
                      rename_i dtoks dn dexp
                      cases ha : _analyze_array_tokens dtoks with
                      | ok elems => simp [ha, scanAgrees]
                      | error er =>
                          have := analyze_array_error_perr _ _ ha
                          subst this
                          simp [ha, scanAgrees]
          | false =>
          cases h5 : token.isKw ")" with
          | true =>
              simp only [h1, h2, h3, h4, h5, Bool.false_eq_true, if_false, if_pos]
              by_cases hz : lvls.par = 0
              · rw [if_pos hz, if_pos hz]
                simp [scanAgrees]
              · rw [if_neg hz, if_neg hz]
                simp [scanAgrees]
          | false =>
          cases h6 : token.isKw "\x7d" with
          | true =>
              simp only [h1, h2, h3, h4, h5, h6, Bool.false_eq_true, if_false, if_pos]
              by_cases hz : lvls.br = 0
              · rw [if_pos hz, if_pos hz]
                simp [scanAgrees]
              · rw [if_neg hz, if_neg hz]
                simp [scanAgrees]
          | false =>
          simp only [h1, h2, h3, h4, h5, h6, Bool.false_eq_true, if_false]
          cases hsb : stopBoth with
          | true =>
              cases h7 : token.isKw ";" with
              | true =>
                  simp only [hsb, hpz, h7, true_and, or_true, true_or, and_true, if_pos]
                  exact ih all start (i + 1) lvls true []
                    (statements ++ [_analyze_tokens (tokens ++ [token])]) hnd hpz
              | false =>
                  cases h8 : token.isKw "," with
                  | true =>
                      simp only [hsb, hpz, h7, h8, Bool.false_eq_true, false_or, or_true,
                        true_and, and_true, if_pos]
                      exact ih all start (i + 1) lvls true []
                        (statements ++ [_analyze_tokens (tokens ++ [token])]) hnd hpz
                  | false =>
                      simp only [hsb, hpz, h7, h8, hdir, Bool.false_eq_true, false_or,
                        or_false, and_false, false_and, true_and, and_true, not_true,
                        if_false]
                      exact ih all start (i + 1) lvls true
                        (if token.isEof then tokens else tokens ++ [token]) statements hnd hpz
          | false =>
              cases h7 : token.isKw ";" with
              | true =>
                  simp only [hsb, hpz, h7, Bool.false_eq_true, false_and, and_false,
                    false_or, or_false, not_false_iff, true_and, and_true, if_pos]
                  exact ih all start (i + 1) lvls false []
                    (statements ++ [_analyze_tokens (tokens ++ [token])]) hnd hpz
              | false =>
                  simp only [hsb, hpz, h7, hdir, Bool.false_eq_true, false_and, and_false,
                    false_or, or_false, not_false_iff, true_and, and_true, not_true,
                    if_false]
                  exact ih all start (i + 1) lvls false
                    (if token.isEof then tokens else tokens ++ [token]) statements hnd hpz

/-- Outcome of the depth-counter scan of a balanced suffix: with an empty
stack of open brackets the scan frame succeeds; with top of stack `k` it
stops at a close token of kind `k`, leaving a balanced residue. -/
def scanOutcome (all : List Ty) (start i : Nat) (res : Except PErr Nat) : List BKind → Prop
  | [] => ∃ n, res = .ok n
  | k :: stk' => ∃ j, i ≤ j ∧ all[j]? = some (closeTok k) ∧ res = .ok (j - start) ∧
      balancedFrom (all.drop (j + 1)) stk' = true

theorem scanOutcome_mono {all : List Ty} {start i i' : Nat} {res : Except PErr Nat}
    {stk : List BKind} (h : i ≤ i') (H : scanOutcome all start i' res stk) :
    scanOutcome all start i res stk := by
  cases stk with
  | nil => exact H
  | cons k stk' =>
      obtain ⟨j, hij, h1, h2, h3⟩ := H
      exact ⟨j, le_trans h hij, h1, h2, h3⟩

/-- On a suffix whose brackets are correctly paired relative to the open
stack `stk` (whose per-kind counts are the current depth counters), the
depth-counter scan never errors: it closes the top frame at a matching
bracket, or succeeds outright at top level. -/
theorem scan_balanced :
    ∀ (fuel : Nat) (all : List Ty) (start i : Nat) (lvls : Lvls) (stopBoth : Bool)
      (stk : List BKind),
      2 * (all.length - i) + 2 ≤ fuel →
      lvls.sq = stk.count .ksq → lvls.par = stk.count .kpar → lvls.br = stk.count .kbr →
      balancedFrom (all.drop i) stk = true →
      scanOutcome all start i (scan_loop fuel all start i lvls stopBoth) stk := by
  intro fuel
  induction fuel with
  | zero =>
      intro all start i lvls stopBoth stk hfuel
      omega
  | succ fuel ih =>
      intro all start i lvls stopBoth stk hfuel hsq hpar hbr hbal
      rw [scan_loop]
      cases hT : all[i]? with
      | none =>
          have hlen : all.length ≤ i := by
            by_contra hc
            push_neg at hc
            rw [List.getElem?_eq_getElem hc] at hT
            exact Option.noConfusion hT
          have hdrop : all.drop i = [] := List.drop_eq_nil_of_le hlen
          rw [hdrop] at hbal
          cases stk with
          | cons k stk' => exact absurd hbal (by simp [balancedFrom])
          | nil =>
              simp only [List.count_nil] at hsq hpar hbr
              simp only [hT, hsq, hpar, hbr, ne_eq, not_true_eq_false, if_false,
                ite_false, not_false_eq_true, ite_true]
              exact ⟨i - start, by simp⟩
      | some token =>
          have hi : i < all.length := (List.getElem?_eq_some.mp hT).1
          have hTi : all[i] = token := (List.getElem?_eq_some.mp hT).2
          have hdrop : all.drop i = token :: all.drop (i + 1) := by
            rw [List.drop_eq_getElem_cons hi, hTi]
          rw [hdrop] at hbal
          simp only [hT]
          cases token with
          | keyword s =>
              by_cases hs1 : s = "["
              · subst hs1
                simp only [balancedFrom, openKind, closeKind, if_pos, ite_true] at hbal
                simp only [Ty.isKw, decide_eq_true_eq, if_pos, ite_true]
                have H := ih all (i + 1) (i + 1) { lvls with sq := lvls.sq + 1 } false
                  (.ksq :: stk) (by omega)
                  (by simp [List.count_cons, hsq])
                  (by simp [List.count_cons, hpar])
                  (by simp [List.count_cons, hbr]) hbal
                obtain ⟨j, hij, hcl, hsub, hbal2⟩ := H
                rw [hsub]
                show scanOutcome all start i
                  (scan_loop fuel all start (i + (j - (i + 1)) + 2) lvls stopBoth) stk
                have hjlen : j < all.length := (List.getElem?_eq_some.mp hcl).1
                have harith : i + (j - (i + 1)) + 2 = j + 1 := by omega
                rw [harith]
                exact scanOutcome_mono (by omega)
                  (ih all start (j + 1) lvls stopBoth stk (by omega) hsq hpar hbr hbal2)
              · by_cases hs2 : s = "("
                · subst hs2
                  simp only [balancedFrom, openKind, closeKind] at hbal
                  norm_num at hbal
                  simp only [Ty.isKw, decide_eq_true_eq]
                  norm_num
                  have H := ih all (i + 1) (i + 1) { lvls with par := lvls.par + 1 } stopBoth
                    (.kpar :: stk) (by omega)
                    (by simp [List.count_cons, hsq])
                    (by simp [List.count_cons, hpar])
                    (by simp [List.count_cons, hbr]) hbal
                  obtain ⟨j, hij, hcl, hsub, hbal2⟩ := H
                  rw [hsub]
                  show scanOutcome all start i
                    (scan_loop fuel all start (i + (j - (i + 1)) + 2) lvls stopBoth) stk
                  have hjlen : j < all.length := (List.getElem?_eq_some.mp hcl).1
                  have harith : i + (j - (i + 1)) + 2 = j + 1 := by omega
                  rw [harith]
                  exact scanOutcome_mono (by omega)
                    (ih all start (j + 1) lvls stopBoth stk (by omega) hsq hpar hbr hbal2)
                · by_cases hs3 : s = "\x7b"
                  · subst hs3
                    simp only [balancedFrom, openKind, closeKind] at hbal
                    norm_num at hbal
                    simp only [Ty.isKw, decide_eq_true_eq]
                    norm_num
                    have H := ih all (i + 1) (i + 1) { lvls with br := lvls.br + 1 } stopBoth
                      (.kbr :: stk) (by omega)
                      (by simp [List.count_cons, hsq])
                      (by simp [List.count_cons, hpar])
                      (by simp [List.count_cons, hbr]) hbal
                    obtain ⟨j, hij, hcl, hsub, hbal2⟩ := H
                    rw [hsub]
                    show scanOutcome all start i
                      (scan_loop fuel all start (i + (j - (i + 1)) + 2) lvls stopBoth) stk
                    have hjlen : j < all.length := (List.getElem?_eq_some.mp hcl).1
                    have harith : i + (j - (i + 1)) + 2 = j + 1 := by omega
                    rw [harith]
                    exact scanOutcome_mono (by omega)
                      (ih all start (j + 1) lvls stopBoth stk (by omega) hsq hpar hbr hbal2)
                  · by_cases hs4 : s = "]"
                    · subst hs4
                      simp only [balancedFrom, openKind, closeKind] at hbal
                      norm_num at hbal
                      cases stk with
                      | nil => exact absurd hbal (by simp)
                      | cons k stk' =>
                          cases k with
                          | ksq =>
                              simp only [ite_true, if_pos] at hbal
                              simp only [Ty.isKw, decide_eq_true_eq]
                              norm_num
                              have hnz : ¬lvls.sq = 0 := by
                                rw [hsq]
                                simp [List.count_cons]
                              rw [if_neg hnz]
                              exact ⟨i, le_refl i, by rw [hT]; rfl, rfl, hbal⟩
                          | kpar => simp at hbal
                          | kbr => simp at hbal
                    · by_cases hs5 : s = ")"
                      · subst hs5
                        simp only [balancedFrom, openKind, closeKind] at hbal
                        norm_num at hbal
                        cases stk with
                        | nil => exact absurd hbal (by simp)
                        | cons k stk' =>
                            cases k with
                            | kpar =>
                                simp only [ite_true, if_pos] at hbal
                                simp only [Ty.isKw, decide_eq_true_eq]
                                norm_num
                                have hnz : ¬lvls.par = 0 := by
                                  rw [hpar]
                                  simp [List.count_cons]
                                rw [if_neg hnz]
                                exact ⟨i, le_refl i, by rw [hT]; rfl, rfl, hbal⟩
                            | ksq => simp at hbal
                            | kbr => simp at hbal
                      · by_cases hs6 : s = "\x7d"
                        · subst hs6
                          simp only [balancedFrom, openKind, closeKind] at hbal
                          norm_num at hbal
                          cases stk with
                          | nil => exact absurd hbal (by simp)
                          | cons k stk' =>
                              cases k with
                              | kbr =>
                                  simp only [ite_true, if_pos] at hbal
                                  simp only [Ty.isKw, decide_eq_true_eq]
                                  norm_num
                                  have hnz : ¬lvls.br = 0 := by
                                    rw [hbr]
                                    simp [List.count_cons]
                                  rw [if_neg hnz]
                                  exact ⟨i, le_refl i, by rw [hT]; rfl, rfl, hbal⟩
                              | ksq => simp at hbal
                              | kpar => simp at hbal
                        · simp only [balancedFrom, openKind, closeKind, hs1, hs2, hs3,
                            hs4, hs5, hs6, ite_false, if_false] at hbal
                          simp only [Ty.isKw, decide_eq_true_eq, hs1, hs2, hs3, hs4,
                            hs5, hs6, ite_false, if_false]
                          exact scanOutcome_mono (Nat.le_succ i)
                            (ih all start (i + 1) lvls stopBoth stk (by omega)
                              hsq hpar hbr hbal)
          | space =>
              simp only [balancedFrom, openKind, closeKind] at hbal
              simp only [Ty.isKw, Bool.false_eq_true, if_false]
              exact scanOutcome_mono (Nat.le_succ i)
                (ih all start (i + 1) lvls stopBoth stk (by omega) hsq hpar hbr hbal)
          | tab =>
              simp only [balancedFrom, openKind, closeKind] at hbal
              simp only [Ty.isKw, Bool.false_eq_true, if_false]
              exact scanOutcome_mono (Nat.le_succ i)
                (ih all start (i + 1) lvls stopBoth stk (by omega) hsq hpar hbr hbal)
          | endOfLine s =>
              simp only [balancedFrom, openKind, closeKind] at hbal
              simp only [Ty.isKw, Bool.false_eq_true, if_false]
              exact scanOutcome_mono (Nat.le_succ i)
                (ih all start (i + 1) lvls stopBoth stk (by omega) hsq hpar hbr hbal)
          | brokenEndOfLine =>
              simp only [balancedFrom, openKind, closeKind] at hbal
              simp only [Ty.isKw, Bool.false_eq_true, if_false]
              exact scanOutcome_mono (Nat.le_succ i)
                (ih all start (i + 1) lvls stopBoth stk (by omega) hsq hpar hbr hbal)
          | endOfFile =>
              simp only [balancedFrom, openKind, closeKind] at hbal
              simp only [Ty.isKw, Bool.false_eq_true, if_false]
              exact scanOutcome_mono (Nat.le_succ i)
                (ih all start (i + 1) lvls stopBoth stk (by omega) hsq hpar hbr hbal)
          | comment s =>
              simp only [balancedFrom, openKind, closeKind] at hbal
              simp only [Ty.isKw, Bool.false_eq_true, if_false]
              exact scanOutcome_mono (Nat.le_succ i)
                (ih all start (i + 1) lvls stopBoth stk (by omega) hsq hpar hbr hbal)
          | strLit s =>
              simp only [balancedFrom, openKind, closeKind] at hbal
              simp only [Ty.isKw, Bool.false_eq_true, if_false]
              exact scanOutcome_mono (Nat.le_succ i)
                (ih all start (i + 1) lvls stopBoth stk (by omega) hsq hpar hbr hbal)
          | boolean b =>
              simp only [balancedFrom, openKind, closeKind] at hbal
              simp only [Ty.isKw, Bool.false_eq_true, if_false]
              exact scanOutcome_mono (Nat.le_succ i)
                (ih all start (i + 1) lvls stopBoth stk (by omega) hsq hpar hbr hbal)
          | number n =>
              simp only [balancedFrom, openKind, closeKind] at hbal
              simp only [Ty.isKw, Bool.false_eq_true, if_false]
              exact scanOutcome_mono (Nat.le_succ i)
                (ih all start (i + 1) lvls stopBoth stk (by omega) hsq hpar hbr hbal)
          | preproc s =>
              simp only [balancedFrom, openKind, closeKind] at hbal
              simp only [Ty.isKw, Bool.false_eq_true, if_false]
              exact scanOutcome_mono (Nat.le_succ i)
                (ih all start (i + 1) lvls stopBoth stk (by omega) hsq hpar hbr hbal)
          | nsTok s =>
              simp only [balancedFrom, openKind, closeKind] at hbal
              simp only [Ty.isKw, Bool.false_eq_true, if_false]
              exact scanOutcome_mono (Nat.le_succ i)
                (ih all start (i + 1) lvls stopBoth stk (by omega) hsq hpar hbr hbal)
          | varT s =>
              simp only [balancedFrom, openKind, closeKind] at hbal
              simp only [Ty.isKw, Bool.false_eq_true, if_false]
              exact scanOutcome_mono (Nat.le_succ i)
                (ih all start (i + 1) lvls stopBoth stk (by omega) hsq hpar hbr hbal)
          | statement ts e p =>
              simp only [balancedFrom, openKind, closeKind] at hbal
              simp only [Ty.isKw, Bool.false_eq_true, if_false]
              exact scanOutcome_mono (Nat.le_succ i)
                (ih all start (i + 1) lvls stopBoth stk (by omega) hsq hpar hbr hbal)
          | code ts =>
              simp only [balancedFrom, openKind, closeKind] at hbal
              simp only [Ty.isKw, Bool.false_eq_true, if_false]
              exact scanOutcome_mono (Nat.le_succ i)
                (ih all start (i + 1) lvls stopBoth stk (by omega) hsq hpar hbr hbal)
          | arr ts =>
              simp only [balancedFrom, openKind, closeKind] at hbal
              simp only [Ty.isKw, Bool.false_eq_true, if_false]
              exact scanOutcome_mono (Nat.le_succ i)
                (ih all start (i + 1) lvls stopBoth stk (by omega) hsq hpar hbr hbal)
          | file ts =>
              simp only [balancedFrom, openKind, closeKind] at hbal
              simp only [Ty.isKw, Bool.false_eq_true, if_false]
              exact scanOutcome_mono (Nat.le_succ i)
                (ih all start (i + 1) lvls stopBoth stk (by omega) hsq hpar hbr hbal)
          | defineStatement ts n e a endg =>
              simp only [balancedFrom, openKind, closeKind] at hbal
              simp only [Ty.isKw, Bool.false_eq_true, if_false]
              exact scanOutcome_mono (Nat.le_succ i)
                (ih all start (i + 1) lvls stopBoth stk (by omega) hsq hpar hbr hbal)
          | defineResult ts n e =>
              simp only [balancedFrom, openKind, closeKind] at hbal
              simp only [Ty.isKw, Bool.false_eq_true, if_false]
              exact scanOutcome_mono (Nat.le_succ i)
                (ih all start (i + 1) lvls stopBoth stk (by omega) hsq hpar hbr hbal)
          | nothing =>
              simp only [balancedFrom, openKind, closeKind] at hbal
              simp only [Ty.isKw, Bool.false_eq_true, if_false]
              exact scanOutcome_mono (Nat.le_succ i)
                (ih all start (i + 1) lvls stopBoth stk (by omega) hsq hpar hbr hbal)
          | privateType v =>
              simp only [balancedFrom, openKind, closeKind] at hbal
              simp only [Ty.isKw, Bool.false_eq_true, if_false]
              exact scanOutcome_mono (Nat.le_succ i)
                (ih all start (i + 1) lvls stopBoth stk (by omega) hsq hpar hbr hbal)
          | forType =>
              simp only [balancedFrom, openKind, closeKind] at hbal
              simp only [Ty.isKw, Bool.false_eq_true, if_false]
              exact scanOutcome_mono (Nat.le_succ i)
                (ih all start (i + 1) lvls stopBoth stk (by omega) hsq hpar hbr hbal)
          | object =>
              simp only [balancedFrom, openKind, closeKind] at hbal
              simp only [Ty.isKw, Bool.false_eq_true, if_false]
              exact scanOutcome_mono (Nat.le_succ i)
                (ih all start (i + 1) lvls stopBoth stk (by omega) hsq hpar hbr hbal)

/-! ## Claims about the block parser: C2, C8, C10, C6 -/

theorem balancedFrom_append_eof :
    ∀ (w : List Ty) (stk : List BKind),
      balancedFrom (w ++ [.endOfFile]) stk = balancedFrom w stk := by
  intro w
  induction w with
  | nil =>
      intro stk
      simp [balancedFrom, openKind, closeKind]
  | cons t ts ih =>
      intro stk
      simp only [List.cons_append, balancedFrom]
      cases h1 : openKind t with
      | some k => exact ih _
      | none =>
          cases h2 : closeKind t with
          | some k =>
              cases stk with
              | nil => rfl
              | cons k' stk' =>
                  by_cases hk : k = k'
                  · simp [hk, ih]
                  · simp [hk]
          | none => exact ih _

/-- Whether an `Except` outcome is an error. -/
def isErr {α : Type} : Except PErr α → Bool
  | .error _ => true
  | .ok _ => false

/-- C2 (amended).  For a directive-free token sequence whose brackets are
correctly paired, parsing (with enough fuel) never raises a parenthesis
error — though, contrary to the claim, it may still raise a non-bracket
`SQFParserError` (see the counterexample).  Every parenthesis error the
parser raises is exactly the one found by the bracket depth-counter scan;
and each anomaly gets the kind-specific message: a closing bracket at zero
depth raises that kind's close error, a kind left open at end of input
raises that kind's not-closed error. -/
theorem C2_amended :
    (∀ (w : List Ty) (fuel : Nat),
      (∀ t ∈ w, t.isDirective = false) →
      balancedTokens w = true →
      2 * (w.length + 1) + 2 ≤ fuel →
      (∀ m, parseTokens fuel w ≠ .error (.paren m)) ∧
        parseTokens fuel w ≠ .error .fuelOut) ∧
    (∀ (w : List Ty) (fuel : Nat) (m : String),
      (∀ t ∈ w, t.isDirective = false) →
      parse_block fuel (w ++ [.endOfFile]) 0 .init true [] = .error (.paren m) →
      scan_loop fuel (w ++ [.endOfFile]) 0 0 .init true = .error (.paren m)) ∧
    parseTokens 20 [Ty.keyword "]"] =
      .error (.paren "Trying to close right parenthesis without them opened.") ∧
    parseTokens 20 [Ty.keyword ")"] =
      .error (.paren "Trying to close parenthesis without opened parenthesis.") ∧
    parseTokens 20 [Ty.keyword "\x7d"] =
      .error (.paren "Trying to close brackets without opened brackets.") ∧
    parseTokens 20 [Ty.keyword "["] = .error (.paren "Parenthesis \"[\" not closed") ∧
    parseTokens 20 [Ty.keyword "("] = .error (.paren "Parenthesis \"(\" not closed") ∧
    parseTokens 20 [Ty.keyword "\x7b"] =
      .error (.paren "Parenthesis \"\x7b\" not closed") := by
  have hpz : Lvls.init.allPreZero = true := by decide
  have key : ∀ (w : List Ty) (fuel : Nat),
      (∀ t ∈ w, t.isDirective = false) →
      scanAgrees (parse_block fuel (w ++ [.endOfFile]) 0 .init true [])
        (scan_loop fuel (w ++ [.endOfFile]) 0 0 .init true) := by
    intro w fuel hnd
    have hnd' : ∀ t ∈ w ++ [Ty.endOfFile], t.isDirective = false := by
      intro t ht
      rcases List.mem_append.mp ht with h | h
      · exact hnd t h
      · rcases List.mem_singleton.mp h with rfl
        rfl
    exact parse_scan_agree fuel (w ++ [.endOfFile]) 0 0 .init true [] [] hnd' hpz
  refine ⟨?_, ?_, rfl, rfl, rfl, rfl, rfl, rfl⟩
  · intro w fuel hnd hbal hfuel
    have hsc := scan_balanced fuel (w ++ [.endOfFile]) 0 0 .init true []
      (by simp only [List.length_append, List.length_singleton, Nat.sub_zero]; omega)
      rfl rfl rfl
      (by rw [List.drop_zero, balancedFrom_append_eof]; exact hbal)
    obtain ⟨n, hsc⟩ := hsc
    have HA := key w fuel hnd
    constructor
    · intro m hcon
      cases hp : parse_block fuel (w ++ [.endOfFile]) 0 .init true [] with
      | ok v =>
          rw [parseTokens, hp] at hcon
          exact Except.noConfusion hcon
      | error e =>
          rw [parseTokens, hp] at hcon
          simp only [Except.map] at hcon
          injection hcon with he
          subst he
          rw [hp] at HA
          simp only [scanAgrees] at HA
          rw [HA] at hsc
          exact Except.noConfusion hsc
    · intro hcon
      cases hp : parse_block fuel (w ++ [.endOfFile]) 0 .init true [] with
      | ok v =>
          rw [parseTokens, hp] at hcon
          exact Except.noConfusion hcon
      | error e =>
          rw [parseTokens, hp] at hcon
          simp only [Except.map] at hcon
          injection hcon with he
          subst he
          rw [hp] at HA
          simp only [scanAgrees] at HA
          rw [HA] at hsc
          exact Except.noConfusion hsc
  · intro w fuel m hnd hp
    have HA := key w fuel hnd
    rw [hp] at HA
    simpa only [scanAgrees] using HA

/-- Witness for C2 (amended) at the balanced directive-free input `(x);`. -/
theorem C2_amended_witness :
    parseTokens 20 [Ty.keyword "(", Ty.varT "x", Ty.keyword ")", Ty.keyword ";"] ≠
      .error (.paren "Trying to close parenthesis without opened parenthesis.") ∧
    parseTokens 20 [Ty.keyword "(", Ty.varT "x", Ty.keyword ")", Ty.keyword ";"] ≠
      .error .fuelOut := by
  have h := C2_amended.1 [Ty.keyword "(", Ty.varT "x", Ty.keyword ")", Ty.keyword ";"] 20
    (by decide) (by decide) (by decide)
  exact ⟨h.1 _, h.2⟩

/-- C2 counterexample: `[,]` has every bracket kind correctly paired, yet the
parse raises (an `SQFParserError` about the empty array element), refuting
"for every token sequence in which each of the three bracket kinds is
correctly paired, parse succeeds without raising". -/
theorem C2_counterexample :
    balancedTokens [Ty.keyword "[", Ty.keyword ",", Ty.keyword "]"] = true ∧
    parseTokens 20 [Ty.keyword "[", Ty.keyword ",", Ty.keyword "]"] =
      .error (.perr "Array cannot have an empty element") := ⟨rfl, rfl⟩

theorem any_isEmpty_modifyHead_cons {L : List (List Ty)} (hL : L ≠ []) (a : Ty) :
    (L.modifyHead (List.cons a)).any List.isEmpty = L.tail.any List.isEmpty := by
  cases L with
  | nil => exact absurd rfl hL
  | cons h t => simp [List.modifyHead]

theorem tail_modifyHead_cons (L : List (List Ty)) (a : Ty) :
    (L.modifyHead (List.cons a)).tail = L.tail := by
  cases L <;> simp [List.modifyHead]

/-- Error characterisation of the `_analyze_array_tokens` loop: relative to
the pending `part` and the `first_comma_found` flag, the loop errors exactly
when the comma-split of the remaining tokens exposes an empty element. -/
theorem arrayGo_isErr :
    ∀ (ts part result : List Ty) (fc : Bool),
      isErr (arrayGo ts part result fc) =
        (if part.isEmpty then
          (if fc then (ts.splitOnP (fun t => t.isKw ",")).any List.isEmpty
           else ts.any (fun t => t.isKw ",") &&
             (ts.splitOnP (fun t => t.isKw ",")).any List.isEmpty)
         else ((ts.splitOnP (fun t => t.isKw ",")).tail).any List.isEmpty) := by
  intro ts
  induction ts with
  | nil =>
      intro part result fc
      by_cases hpe : part.isEmpty <;> cases fc <;>
        simp [arrayGo, isErr, hpe, List.splitOnP_nil]
  | cons t ts ih =>
      intro part result fc
      by_cases hc : t.isKw ","
      · by_cases hpe : part.isEmpty
        · have hgo : arrayGo (t :: ts) part result fc =
              .error (.perr "Array cannot have an empty element") := by
            simp [arrayGo, hc, hpe]
          rw [hgo]
          cases fc <;> simp [isErr, hpe, List.splitOnP_cons, List.any_cons, hc]
        · have hgo : arrayGo (t :: ts) part result fc =
              arrayGo ts [] (result ++ [_analyze_tokens part]) true := by
            simp [arrayGo, hc, hpe]
          rw [hgo, ih [] (result ++ [_analyze_tokens part]) true]
          simp [hpe, List.splitOnP_cons, hc]
      · have hgo : arrayGo (t :: ts) part result fc =
            arrayGo ts (part ++ [t]) result fc := by
          simp [arrayGo, hc]
        rw [hgo, ih (part ++ [t]) result fc]
        have hne : (part ++ [t]).isEmpty = false := by simp
        rw [hne]
        simp only [Bool.false_eq_true, if_false, ite_false, List.splitOnP_cons, hc,
          tail_modifyHead_cons]
        by_cases hpe : part.isEmpty
        · rw [if_pos hpe]
          cases fc with
          | true =>
              simp only [ite_true]
              rw [any_isEmpty_modifyHead_cons (List.splitOnP_ne_nil _ _) t]
          | false =>
              simp only [ite_false, List.any_cons, hc, Bool.false_or]
              rw [any_isEmpty_modifyHead_cons (List.splitOnP_ne_nil _ _) t]
              cases hcm : ts.any (fun x => x.isKw ",") with
              | true => simp
              | false =>
                  have hsingle : ts.splitOnP (fun x => x.isKw ",") = [ts] := by
                    apply List.splitOnP_eq_single
                    intro x hx hpx
                    have : ts.any (fun x => x.isKw ",") = true :=
                      List.any_eq_true.mpr ⟨x, hx, hpx⟩
                    rw [hcm] at this
                    exact Bool.noConfusion this
                  rw [hsingle]
                  simp
        · rw [if_neg hpe]

/-- C8 (amended).  In `parse_block`, a separator token terminates the
current token run into a completed statement exactly when (a) no directive
is active and `stop_statement` is `'both'` (then both `;` and `,`
terminate), or (b) `stop_statement` is `'single'` and the token is `;`
(even inside an active directive).  Otherwise — in particular for `;` with
an active directive when `stop_statement` is `'both'`, contrary to the
claim's "`;` always terminates" — the separator is appended to the current
run as an ordinary token. -/
theorem C8_amended :
    ∀ (fuel : Nat) (all : List Ty) (start i : Nat) (lvls : Lvls) (stopBoth : Bool)
      (defines : Defines) (tokens statements : List Ty) (token : Ty),
      all[i]? = some token →
      defines.lookup token.render = none →
      (token.isKw ";" = true ∨ token.isKw "," = true) →
      ((lvls.allPreZero = true ∧ stopBoth = true →
        parse_block_loop (fuel + 1) all start i lvls stopBoth defines tokens statements =
          parse_block_loop fuel all start (i + 1) lvls stopBoth defines []
            (statements ++ [_analyze_tokens (tokens ++ [token])])) ∧
      (stopBoth = false ∧ token.isKw ";" = true →
        parse_block_loop (fuel + 1) all start i lvls stopBoth defines tokens statements =
          parse_block_loop fuel all start (i + 1) lvls stopBoth defines []
            (statements ++ [_analyze_tokens (tokens ++ [token])])) ∧
      (lvls.allPreZero = false ∧ stopBoth = true →
        parse_block_loop (fuel + 1) all start i lvls stopBoth defines tokens statements =
          parse_block_loop fuel all start (i + 1) lvls stopBoth defines
            (tokens ++ [token]) statements) ∧
      (stopBoth = false ∧ token.isKw "," = true →
        parse_block_loop (fuel + 1) all start i lvls stopBoth defines tokens statements =
          parse_block_loop fuel all start (i + 1) lvls stopBoth defines
            (tokens ++ [token]) statements)) := by
  intro fuel all start i lvls stopBoth defines tokens statements token hT hlk hsep
  have htry : tryDefine all i token defines = none := by
    simp only [tryDefine, hlk]
  obtain ⟨s, rfl, hs⟩ : ∃ s, token = Ty.keyword s ∧ (s = ";" ∨ s = ",") := by
    cases token <;> simp only [Ty.isKw] at hsep <;>
      first
        | exact ⟨_, rfl, by simpa using hsep⟩
        | simp at hsep
  refine ⟨?_, ?_, ?_, ?_⟩
  · rintro ⟨hpz, rfl⟩
    rcases hs with rfl | rfl <;>
      simp [parse_block_loop, hT, htry, Ty.isKw, hpz]
  · rintro ⟨rfl, hsemi⟩
    rcases hs with rfl | rfl
    · simp [parse_block_loop, hT, htry, Ty.isKw]
    · simp [Ty.isKw] at hsemi
  · rintro ⟨hpz, rfl⟩
    rcases hs with rfl | rfl <;>
      simp [parse_block_loop, hT, htry, Ty.isKw, Ty.isDirective, Ty.isEolComEof,
        Ty.isEof, hpz, PREPROCESSORS]
  · rintro ⟨rfl, hcom⟩
    rcases hs with rfl | rfl
    · simp [Ty.isKw] at hcom
    · simp [parse_block_loop, hT, htry, Ty.isKw, Ty.isDirective, Ty.isEolComEof,
        Ty.isEof, PREPROCESSORS]

/-- Witness for C8 (amended): one concrete separator step in each regime. -/
theorem C8_amended_witness :
    parse_block_loop 4 [Ty.keyword ";"] 0 0 .init true [] [Ty.number 1] [] =
      parse_block_loop 3 [Ty.keyword ";"] 0 1 .init true [] []
        ([] ++ [_analyze_tokens ([Ty.number 1] ++ [Ty.keyword ";"])]) ∧
    parse_block_loop 4 [Ty.keyword ";"] 0 0 (Lvls.init.preInc "#define") true []
        [Ty.number 1] [] =
      parse_block_loop 3 [Ty.keyword ";"] 0 1 (Lvls.init.preInc "#define") true []
        ([Ty.number 1] ++ [Ty.keyword ";"]) [] := by
  constructor
  · exact (C8_amended 3 [Ty.keyword ";"] 0 0 .init true [] [Ty.number 1] []
      (Ty.keyword ";") rfl rfl (Or.inl rfl)).1 ⟨by decide, rfl⟩
  · exact (C8_amended 3 [Ty.keyword ";"] 0 0 (Lvls.init.preInc "#define") true []
      [Ty.number 1] [] (Ty.keyword ";") rfl rfl (Or.inl rfl)).2.2.1 ⟨by decide, rfl⟩

/-- The program `#define A 1; 2` followed by `3;`: the `;` inside the active
`#define` directive is part of the macro body. -/
def defineSemicolonProgram : List Ty :=
  [.preproc "#define", .space, .varT "A", .space, .number 1, .keyword ";", .space,
   .number 2, .endOfLine "\n", .number 3, .keyword ";"]

/-- C8 counterexample: in `#define A 1; 2`, the first `;` does not terminate
the current token run into a completed statement — it is swallowed into the
macro body `1; 2`, refuting "a `;` token always terminates the current token
run into a completed statement". -/
theorem C8_counterexample :
    parseTokens 50 defineSemicolonProgram =
      .ok (.statement
        [.statement
          [.defineStatement
            [.preproc "#define", .space, .varT "A", .space, .number 1, .keyword ";",
             .space, .number 2]
            "A" [.number 1, .keyword ";", .space, .number 2] [] "\n"] "" false,
         .statement [.number 3] ";" false] "" false) := rfl

/-- C10.  `_analyze_array_tokens` accepts the empty token sequence as an
empty array; it raises exactly when at least one comma is present and the
comma-split of the element tokens has an empty segment (leading comma,
double comma, or trailing comma after a comma-separated element), and the
error is always the empty-element `SQFParserError`. -/
theorem C10_thm :
    _analyze_array_tokens ([] : List Ty) = .ok [] ∧
    (∀ ts : List Ty,
      isErr (_analyze_array_tokens ts) =
        (ts.any (fun t => t.isKw ",") &&
          (ts.splitOnP (fun t => t.isKw ",")).any List.isEmpty)) ∧
    (∀ (ts : List Ty) (er : PErr), _analyze_array_tokens ts = .error er →
      er = .perr "Array cannot have an empty element") := by
  refine ⟨rfl, ?_, fun ts er h => analyze_array_error_perr ts er h⟩
  intro ts
  cases ts with
  | nil => rfl
  | cons t ts' =>
      show isErr (arrayGo (t :: ts') [] [] false) = _
      rw [arrayGo_isErr]
      simp

/-- Witness for C10: leading comma errors, a plain element does not, and the
error message is the empty-element one. -/
theorem C10_witness :
    isErr (_analyze_array_tokens [Ty.keyword ","]) =
      (([Ty.keyword ","].any (fun t => t.isKw ",")) &&
        (([Ty.keyword ","].splitOnP (fun t => t.isKw ",")).any List.isEmpty)) ∧
    isErr (_analyze_array_tokens [Ty.number 1]) =
      (([Ty.number 1].any (fun t => t.isKw ",")) &&
        (([Ty.number 1].splitOnP (fun t => t.isKw ",")).any List.isEmpty)) ∧
    (PErr.perr "Array cannot have an empty element" =
      .perr "Array cannot have an empty element") :=
  ⟨C10_thm.2.1 [Ty.keyword ","], C10_thm.2.1 [Ty.number 1],
    C10_thm.2.2 [Ty.keyword ","] (.perr "Array cannot have an empty element") rfl⟩

/-- The program `#define ADD(a,b) (a + b)` followed by `ADD(1,2);`. -/
def addMacroProgram : List Ty :=
  [.preproc "#define", .space, .varT "ADD",
   .keyword "(", .varT "a", .keyword ",", .varT "b", .keyword ")",
   .space,
   .keyword "(", .varT "a", .space, .keyword "+", .space, .varT "b", .keyword ")",
   .endOfLine "\n",
   .varT "ADD", .keyword "(", .number 1, .keyword ",", .number 2, .keyword ")",
   .keyword ";"]

/-- The program `(1 + 2)`. -/
def addDirectProgram : List Ty :=
  [.keyword "(", .number 1, .space, .keyword "+", .space, .number 2, .keyword ")"]

/-- C6.  Expanding `ADD(1,2)` under `#define ADD(a,b) (a + b)` substitutes
the actual arguments for the formal parameters and re-parses: the resulting
`DefineResult` keeps the original call tokens and its expansion contains the
same parenthesised sub-tree `x` as parsing `(1 + 2)` directly (equality is
on position-free trees; the trailing `;` of the call site shows up as the
expansion statement's ending). -/
theorem C6_thm :
    ∃ d x,
      parseTokens 100 addMacroProgram =
        .ok (.statement
          [d,
           .defineResult
             [.varT "ADD", .keyword "(", .number 1, .keyword ",", .number 2,
              .keyword ")", .keyword ";"]
             "ADD" (.statement [x] ";" false)] "" false) ∧
      parseTokens 100 addDirectProgram =
        .ok (.statement [.statement [x] "" false] "" false) := by
  refine ⟨.statement
      [.defineStatement
        [.preproc "#define", .space, .varT "ADD",
         .statement [.statement [.varT "a", .keyword ",", .varT "b"] "" false] "" true,
         .space,
         .statement [.statement [.varT "a", .space, .keyword "+", .space, .varT "b"]
           "" false] "" true]
        "ADD"
        [.statement [.statement [.varT "a", .space, .keyword "+", .space, .varT "b"]
           "" false] "" true]
        ["a", "b"] "\n"] "" false,
    .statement [.statement [.number 1, .space, .keyword "+", .space, .number 2]
      "" false] "" true, ?_, ?_⟩ <;> decide!

/-- C7 (amended).  The literal merger fails — always with the structural
error `String is not closed` — exactly when the input ends inside an
unterminated string literal.  An input ending inside an unterminated
comment does NOT fail: the pending comment is flushed as a final `Comment`
token, and inputs ending in neutral mode succeed. -/
theorem C7_amended (ts : List String) :
    ((parse_strings_and_comments ts = .error (.perr "String is not closed")) ↔
      (literalMode ts = .strDouble ∨ literalMode ts = .strSingle)) ∧
    ((literalMode ts = .comLine ∨ literalMode ts = .comBulk) →
      ∃ l s, parse_strings_and_comments ts = .ok (l ++ [.comTok s])) ∧
    (literalMode ts = .noneM → (parse_strings_and_comments ts).isOk = true) := by
  have H := psacGo_characterization ts .noneM false "" []
  refine ⟨H.2.1, H.2.2, ?_⟩
  intro hm
  apply H.1.mpr
  rw [literalMode] at hm
  rw [hm]
  simp

/-- Witness for C7 (amended): an unterminated bulk comment is flushed, an
unterminated double-quoted string raises `String is not closed`. -/
theorem C7_amended_witness :
    (∃ l s, parse_strings_and_comments ["/*", "x"] = .ok (l ++ [.comTok s])) ∧
    parse_strings_and_comments ["\"", "x"] = .error (.perr "String is not closed") :=
  ⟨(C7_amended ["/*", "x"]).2.1 (Or.inr rfl),
   (C7_amended ["\"", "x"]).1.mpr (Or.inl rfl)⟩

/-- C7 counterexample: the input `/* x` ends inside an unterminated bulk
comment, yet the merger succeeds (emitting the comment), refuting "an input
ending inside an unterminated comment fails with a structural error just as
an input ending inside an unterminated string does". -/
theorem C7_counterexample :
    parse_strings_and_comments ["/*", "x"] = .ok [.comTok "/*x"] := rfl

/-! ## The analyser (`sqf/analyser.py`) and its collaborator interfaces -/

/-- A collected diagnostic: `SQFParserError` or `SQFWarning` (the analyser
stores exceptions instead of raising them); positions are not modelled. -/
inductive Diag where
  | perror (msg : String) : Diag
  | warning (msg : String) : Diag
  deriving DecidableEq, Repr

/-- A lexical scope: a mapping from variable names to abstract values. -/
abbrev Scope := List (String × Ty)

/-- Analyser state (`Analyzer.__init__` plus the scope/namespace fields of
`BaseInterpreter`, which is not among the sources and is modelled from the
spec: namespaces hold a stack of scopes, level 0 being the outermost).
Dictionaries keep insertion order as association lists. -/
structure Analyzer where
  namespaces : List (String × List Scope)
  currentNamespace : String
  exceptions : List Diag
  privates : List Ty
  unevaluatedInterpreterTokens : List Ty
  unexecutedCodes : List (String × Ty)
  executedCodes : List (String × Ty)
  defines : List (String × Ty)
  deriving DecidableEq

namespace Analyzer

/-- A fresh `Analyzer()`: empty bookkeeping, a mission namespace with one
outermost scope (the other engine namespaces play no role in the verified
claims). -/
def fresh : Analyzer :=
  { namespaces := [("missionnamespace", [[]])],
    currentNamespace := "missionnamespace",
    exceptions := [], privates := [], unevaluatedInterpreterTokens := [],
    unexecutedCodes := [], executedCodes := [], defines := [] }

/-- `self.exception(e)`. -/
def addException (a : Analyzer) (d : Diag) : Analyzer :=
  { a with exceptions := a.exceptions ++ [d] }

/-- The scope stack of the current namespace. -/
def curScopes (a : Analyzer) : List Scope :=
  (a.namespaces.lookup a.currentNamespace).getD [[]]

/-- Replace the scope stack of the current namespace. -/
def setCurScopes (a : Analyzer) (scs : List Scope) : Analyzer :=
  { a with namespaces :=
      a.namespaces.map (fun p => if p.1 = a.currentNamespace then (p.1, scs) else p) }

end Analyzer

/-- Name lookup in one scope. -/
def scopeHasVar (sc : Scope) (n : String) : Bool := sc.any (fun p => p.1 == n)

/-- Read a variable from one scope; an absent name reads as `Nothing`
(the unknown/void abstract value). -/
def scopeGetVar (sc : Scope) (n : String) : Ty :=
  ((sc.find? (fun p => p.1 == n)).map Prod.snd).getD .nothing

/-- Write a variable in one scope (update in place or append). -/
def scopeSetVar (sc : Scope) (n : String) (v : Ty) : Scope :=
  if sc.any (fun p => p.1 == n) then sc.map (fun p => if p.1 == n then (p.1, v) else p)
  else sc ++ [(n, v)]

/-- Deepest (innermost) scope level whose scope binds the name: scope lists
go outermost-first, so the result is the largest binding index. -/
def scopeLevelAux : List Scope → String → Option Nat
  | [], _ => none
  | sc :: rest, n =>
      match scopeLevelAux rest n with
      | some i => some (i + 1)
      | none => if scopeHasVar sc n then some 0 else none

/-- Replace the scope at one level (the Python code mutates the scope
object in place inside the stack). -/
def setScopeAt : List Scope → Nat → String → Ty → List Scope
  | [], _, _, _ => []
  | sc :: rest, 0, n, v => scopeSetVar sc n v :: rest
  | sc :: rest, i + 1, n, v => sc :: setScopeAt rest i n v

namespace Analyzer

/-- Modelled from the spec: `BaseInterpreter.get_scope` — variables are
looked up through the stack of scopes innermost-first; an unregistered name
falls back to the outermost (level 0) scope.  Returns the level. -/
def getScopeLevel (a : Analyzer) (n : String) : Nat :=
  (scopeLevelAux a.curScopes n).getD 0

/-- Read a variable through `get_scope`. -/
def readVar (a : Analyzer) (n : String) : Ty :=
  scopeGetVar (a.curScopes.getD (a.getScopeLevel n) []) n

/-- Write a variable into the scope `get_scope` resolves to. -/
def writeVar (a : Analyzer) (n : String) (v : Ty) : Analyzer :=
  a.setCurScopes (setScopeAt a.curScopes (a.getScopeLevel n) n v)

/-- Modelled from the spec: `add_scope` of the scope provider — executing a
code block pushes a new innermost scope (optionally seeded with extra
bindings such as `_this` or loop locals). -/
def addScope (a : Analyzer) (extra : List (String × Ty)) : Analyzer :=
  a.setCurScopes (a.curScopes ++ [extra])

/-- Modelled from the spec: `del_scope` — the scope pushed for a code block
is popped when its execution finishes. -/
def delScope (a : Analyzer) : Analyzer :=
  a.setCurScopes a.curScopes.dropLast

/-- Write a variable into the current (innermost) scope. -/
def writeTopScope (a : Analyzer) (n : String) (v : Ty) : Analyzer :=
  a.setCurScopes (setScopeAt a.curScopes (a.curScopes.length - 1) n v)

end Analyzer

/-- `s[1:-1]`: strip the quotes of a `String` literal's stored text. -/
def stripQuotes (s : String) : String := String.mk (s.data.drop 1).dropLast

/-- Modelled from the spec: `add_privates` — each name given as a string is
registered as declared-private in the current (innermost) scope, with the
unknown value `Nothing`. -/
def Analyzer.add_privates (a : Analyzer) (vars : List Ty) : Analyzer :=
  vars.foldl
    (fun st v =>
      match v with
      | .strLit s => st.writeTopScope (stripQuotes s) .nothing
      | _ => st) a

/-- `Variable.is_global`: a name is global-looking unless it starts with
the local sigil `_`. -/
def isGlobalName (s : String) : Bool :=
  match s.data with
  | [] => true
  | c :: _ => decide (c ≠ '_')

/-- `str.isupper()` of Python: at least one cased character and no
lowercase one. -/
def isUpperStr (s : String) : Bool :=
  s.data.any (fun c => c.isAlpha) && s.data.all (fun c => !c.isLower)

namespace Ty

/-- `Keyword`-compatible value of a token (`Preprocessor` is a `Keyword`
subclass). -/
def kwValue : Ty → Option String
  | .keyword s => some s
  | .preproc s => some s
  | _ => none

/-- `base_tokens`: the container's tokens with `ParserType` entries
filtered out; a non-container is its own single base token. -/
def baseTokens : Ty → List Ty
  | .statement ts _ _ => ts.filter (fun t => !t.isParserType)
  | .code ts => ts.filter (fun t => !t.isParserType)
  | .file ts => ts.filter (fun t => !t.isParserType)
  | .defineStatement ts _ _ _ _ => ts.filter (fun t => !t.isParserType)
  | .defineResult ts _ _ => ts.filter (fun t => !t.isParserType)
  | .arr ts => ts.filter (fun t => !t.isParserType)
  | t => [t]

/-- The `ending` marker of a statement (empty when none). -/
def endingStr : Ty → String
  | .statement _ e _ => e
  | .defineStatement _ _ _ _ e => e
  | _ => ""

/-- The `_tokens` of a container. -/
def innerTokens : Ty → List Ty
  | .statement ts _ _ => ts
  | .code ts => ts
  | .file ts => ts
  | .arr ts => ts
  | .defineStatement ts _ _ _ _ => ts
  | .defineResult ts _ _ => ts
  | _ => []

/-- The Python class name of an abstract value (used for `type(x)`
comparisons and diagnostic messages). -/
def tyName : Ty → String
  | .space => "Space"
  | .tab => "Tab"
  | .endOfLine _ => "EndOfLine"
  | .brokenEndOfLine => "BrokenEndOfLine"
  | .endOfFile => "EndOfFile"
  | .comment _ => "Comment"
  | .strLit _ => "String"
  | .boolean _ => "Boolean"
  | .number _ => "Number"
  | .preproc _ => "Preprocessor"
  | .nsTok _ => "Namespace"
  | .keyword _ => "Keyword"
  | .varT _ => "Variable"
  | .statement _ _ _ => "Statement"
  | .code _ => "Code"
  | .arr _ => "Array"
  | .file _ => "File"
  | .defineStatement _ _ _ _ _ => "DefineStatement"
  | .defineResult _ _ _ => "DefineResult"
  | .nothing => "Nothing"
  | .privateType _ => "PrivateType"
  | .forType => "ForType"
  | .object => "Object"

/-- A fresh default instance of a type, for `rhs_t()` (the stored value
carries only the type, so the payload defaults are irrelevant). -/
def defaultOfTyName : String → Ty
  | "Number" => .number 0
  | "String" => .strLit ""
  | "Boolean" => .boolean false
  | "Array" => .arr []
  | "Code" => .code []
  | "Object" => .object
  | "ForType" => .forType
  | _ => .nothing

/-- `isinstance(x, Type)`: abstract values, as opposed to keywords and
parser-only tokens. -/
def isType : Ty → Bool
  | .varT _ | .strLit _ | .boolean _ | .number _ | .arr _ | .code _ | .file _
  | .nothing | .privateType _ | .forType | .object | .nsTok _ => true
  | _ => false

/-- `isinstance(x, InterpreterType)` for the helper values the claims can
produce. -/
def isInterpreterType : Ty → Bool
  | .privateType _ | .forType => true
  | _ => false

end Ty

/-- Modelled from the spec: `get_variable` of the scope provider — the
structural identity of an assignment target: a variable is itself, a
statement resolves through its first base token, anything else is returned
unchanged (and then fails the `isinstance(lhs, Variable)` check). -/
def get_variable : Ty → Ty
  | .varT n => .varT n
  | .statement ts e p =>
      match (Ty.statement ts e p).baseTokens.head? with
      | some t =>
          match t with
          | .varT n => .varT n
          | u => u
      | none => .nothing
  | t => t

/-- One element of an expression signature: a keyword literal or a typed
operand. -/
inductive SigElem where
  | kw (s : String) : SigElem
  | tcode : SigElem
  deriving DecidableEq, Repr

/-- A database entry: signature plus declared return type name. -/
structure ExprSig where
  sig : List SigElem
  returnTyName : String
  deriving DecidableEq, Repr

/-- Modelled from the spec: the expression signature database (an external
collaborator).  Only the `call` built-in — a keyword with a code-block
operand whose body the analyser executes recursively (spec 4.3 step 7) —
is included; it is the only built-in the verified claims exercise, and its
return type is unknown (`Nothing`). -/
def EXPRESSIONS : List ExprSig := [⟨[.kw "call", .tcode], "Nothing"⟩]

/-- Loose signature match (`is_signature_match`): arity and keyword
positions. -/
def sigLooseMatch (e : ExprSig) (values : List Ty) : Bool :=
  e.sig.length == values.length &&
    (e.sig.zip values).all (fun p =>
      match p.1 with
      | .kw s => p.2.kwValue == some s
      | .tcode => true)

/-- Strict signature match (`is_match`): additionally each typed operand
has the declared type. -/
def sigStrictMatch (e : ExprSig) (values : List Ty) : Bool :=
  sigLooseMatch e values &&
    (e.sig.zip values).all (fun p =>
      match p.1 with
      | .kw _ => true
      | .tcode => p.2.tyName == "Code")

/-- The first keyword of a signature (`case_found.keyword`). -/
def sigKeyword (e : ExprSig) : String :=
  match e.sig.find? (fun s => match s with | .kw _ => true | _ => false) with
  | some (.kw s) => s
  | _ => ""

/-- The synthetic loop-local bindings certain built-ins inject
(analyser.py lines 249-257). -/
def caseExtraScope (e : ExprSig) (values : List Ty) : Option (List (String × Ty)) :=
  let k := sigKeyword e
  if k = "select" ∨ k = "apply" ∨ k = "count" then some [("_x", .nothing)]
  else if k = "foreach" then some [("_foreachindex", .number 0), ("_x", .nothing)]
  else if k = "catch" then some [("_exception", .object)]
  else if k = "do" ∧ ((values.headD .nothing).tyName == "ForType") then
    some [("_i", .number 0)]
  else none

/-- `dict[k] = v` for a string-keyed dict kept as an ordered association
list. -/
def insertAssoc (l : List (String × Ty)) (k : String) (v : Ty) : List (String × Ty) :=
  if l.any (fun p => p.1 == k) then l.map (fun p => if p.1 == k then (k, v) else p)
  else l ++ [(k, v)]

/-- The declared-type name of operand 1 of a signature (for the unary
diagnostic message). -/
def sigElemTypeName : SigElem → String
  | .tcode => "Code"
  | .kw s => s

/-- Comma-join for diagnostic message lists. -/
def joinComma : List String → String
  | [] => ""
  | [s] => s
  | s :: rest => s ++ "," ++ joinComma rest

/-- `type(x) == Statement and x.parenthesis`. -/
def Ty.isParenStatement : Ty → Bool
  | .statement _ _ true => true
  | _ => false

/-- The widened stored type of an assignment (analyser.py lines 196-202):
a conflicting re-assignment downgrades the recorded type to the unknown
`Nothing` instead of reporting an error. -/
def widenTyName (old new : String) : String :=
  if old ≠ "Nothing" ∧ old ≠ new then "Nothing" else new

/-- The scope update of an assignment (analyser.py lines 193-203): the
resolved scope stores a fresh default instance of the widened type.  `qr`
is the analyser/value pair produced by evaluating the right-hand side. -/
def assignWrite (qr : Analyzer × Ty) (n : String) : Analyzer :=
  qr.1.writeVar n (Ty.defaultOfTyName (widenTyName (qr.1.readVar n).tyName qr.2.tyName))

/-- The scope-visibility check of an assignment (analyser.py lines
204-206): an assignment whose target resolved to the outermost scope warns
when the name is local-looking. -/
def assignWarned (qr : Analyzer × Ty) (n : String) : Analyzer :=
  if qr.1.getScopeLevel n = 0 ∧ ¬isGlobalName n then
    (assignWrite qr n).addException (Diag.warning ("Local variable \"" ++ n ++
      "\" assigned to an outer scope (not private)"))
  else assignWrite qr n

/-- The parsed form of the assignment statement `n = rhs;`. -/
def assignStmt (n : String) (rhs : Ty) : Ty :=
  .statement [.varT n, .keyword "=", rhs] ";" false

/-- The tail of `Analyzer.value` (analyser.py lines 69-72): a produced
`Code` value is registered as unexecuted, keyed by its canonical string
form, unless that key is already tracked as unexecuted. -/
def trackCode (r : Analyzer × Ty) : Analyzer × Ty :=
  match r.2 with
  | .code cts =>
      if ((r.1.unexecutedCodes.lookup (Ty.code cts).render)).isNone then
        ({ r.1 with unexecutedCodes :=
            r.1.unexecutedCodes ++ [((Ty.code cts).render, .code cts)] }, .code cts)
      else r
  | _ => r

mutual

/-- `Analyzer.value` (analyser.py lines 44-72): evaluate a token to an
abstract value, warn on reads of unregistered local-looking names, and
track every produced `Code` value as unexecuted (keyed by its canonical
string form) unless that key is already tracked. -/
def a_value : Nat → Analyzer → Ty → Analyzer × Ty
  | 0, a, _ => (a, .nothing)
  | fuel + 1, a, token =>
      let r : Analyzer × Ty :=
        match token with
        | .statement ts e p =>
            let q := a_execute_token fuel a (.statement ts e p)
            a_value fuel q.1 q.2
        | .defineStatement ts n ex ar en =>
            let q := a_execute_token fuel a (.defineStatement ts n ex ar en)
            a_value fuel q.1 q.2
        | .varT n =>
            let lvl := a.getScopeLevel n
            let a1 := if lvl = 0 ∧ ¬isGlobalName n then
                a.addException (.warning ("Local variable \"" ++ n ++
                  "\" is not from this scope (not private)"))
              else a
            (a1, a1.readVar n)
        | .arr ts =>
            let q := a_value_list fuel a ts
            (q.1, .arr q.2)
        | t =>
            match EXPRESSIONS.filter (fun e => sigLooseMatch e [t]) with
            | e :: _ => (a, Ty.defaultOfTyName e.returnTyName)
            | [] => (a, t)
      trackCode r

/-- Elementwise `value(execute_token(s))` over an array's elements. -/
def a_value_list : Nat → Analyzer → List Ty → Analyzer × List Ty
  | 0, a, _ => (a, [])
  | _ + 1, a, [] => (a, [])
  | fuel + 1, a, t :: ts =>
      let q1 := a_execute_token fuel a t
      let q2 := a_value fuel q1.1 q1.2
      let q3 := a_value_list fuel q2.1 ts
      (q3.1, q2.2 :: q3.2)

/-- `Analyzer.execute_token` (lines 74-93): structural resolution without
full evaluation. -/
def a_execute_token : Nat → Analyzer → Ty → Analyzer × Ty
  | 0, a, _ => (a, .nothing)
  | fuel + 1, a, token =>
      match token with
      | .statement ts e p => a_execute_single fuel a (.statement ts e p)
      | .defineStatement ts n ex ar en =>
          a_execute_single fuel a (.defineStatement ts n ex ar en)
      | .arr ts =>
          let q := a_execute_token_list fuel a ts
          (q.1, .arr q.2)
      | t =>
          match a.defines.lookup t.render with
          | some d => a_execute_token fuel a d
          | none => (a, t)

/-- Elementwise `execute_token` over an array's elements. -/
def a_execute_token_list : Nat → Analyzer → List Ty → Analyzer × List Ty
  | 0, a, _ => (a, [])
  | _ + 1, a, [] => (a, [])
  | fuel + 1, a, t :: ts =>
      let q1 := a_execute_token fuel a t
      let q3 := a_execute_token_list fuel q1.1 ts
      (q3.1, q1.2 :: q3.2)

/-- `Analyzer.execute_code` (lines 112-130): move the code from the
unexecuted to the executed set, run its body in a fresh innermost scope
(the base `execute_code` is modelled from the spec), and at `File` level
run the end-of-file phase: execute every still-unexecuted `Code` in a
child analyser, report pending `private`s and unevaluated helper types. -/
def a_execute_code : Nat → Analyzer → Ty → Option (List (String × Ty)) → Analyzer × Ty
  | 0, a, _, _ => (a, .nothing)
  | fuel + 1, a, cd, extraScope =>
      let key := cd.render
      let a1 := { a with
        unexecutedCodes := a.unexecutedCodes.filter (fun p => p.1 ≠ key),
        executedCodes := insertAssoc a.executedCodes key cd }
      let a2 := a1.addScope (extraScope.getD [])
      let q3 := a_execute_body fuel a2 cd.baseTokens
      let a4 := q3.1.delScope
      match cd with
      | .file _ =>
          let a5 := a_execute_unexecuted_list fuel a4 a4.unexecutedCodes
          let a6 := a5.privates.foldl
            (fun st _ => st.addException (.warning "private argument must be a string.")) a5
          let a7 := a6.unevaluatedInterpreterTokens.foldl
            (fun st t => st.addException
              (.warning ("helper type \"" ++ t.tyName ++ "\" not evaluated"))) a6
          (a7, q3.2)
      | _ => (a4, q3.2)

/-- Modelled from the spec: the statement loop of the base
`execute_code` — each statement of the block is executed in order and the
last outcome is returned. -/
def a_execute_body : Nat → Analyzer → List Ty → Analyzer × Ty
  | 0, a, _ => (a, .nothing)
  | _ + 1, a, [] => (a, .nothing)
  | fuel + 1, a, s :: rest =>
      let q := a_execute_single fuel a s
      match rest with
      | [] => q
      | _ => a_execute_body fuel q.1 rest

/-- The end-of-file loop over the snapshot of the unexecuted-code set
(lines 121-122). -/
def a_execute_unexecuted_list : Nat → Analyzer → List (String × Ty) → Analyzer
  | 0, a, _ => a
  | _ + 1, a, [] => a
  | fuel + 1, a, (_, c) :: rest =>
      a_execute_unexecuted_list fuel (a_execute_unexecuted_code fuel a c) rest

/-- `Analyzer.execute_unexecuted_code` (lines 95-110): run the code in a
fresh child analyser whose namespaces are a copy of the parent's (deep copy
in Python; plain sharing of the immutable value here), and merge only the
child's diagnostics back. -/
def a_execute_unexecuted_code : Nat → Analyzer → Ty → Analyzer
  | 0, a, _ => a
  | fuel + 1, a, cd =>
      let child := { Analyzer.fresh with
        namespaces := a.namespaces, currentNamespace := "missionnamespace" }
      let q := a_execute_code fuel child (.file cd.innerTokens) none
      { a with exceptions := a.exceptions ++ q.1.exceptions }

/-- The token loop of the general case of `execute_single` (lines
227-232): structurally resolve then fully evaluate every base token. -/
def a_eval_values : Nat → Analyzer → List Ty → Analyzer × List Ty × List Ty
  | 0, a, _ => (a, [], [])
  | _ + 1, a, [] => (a, [], [])
  | fuel + 1, a, t :: ts =>
      let q1 := a_execute_token fuel a t
      let q2 := a_value fuel q1.1 q1.2
      let q3 := a_eval_values fuel q2.1 ts
      (q3.1, q1.2 :: q3.2.1, q2.2 :: q3.2.2)

/-- The post-match loop of `execute_single` (lines 258-265): operands whose
declared type is a code block are executed by the analyser itself, and
evaluated interpreter-helper tokens are removed from the pending list. -/
def a_case_codes : Nat → Analyzer → List (Ty × SigElem) → Option (List (String × Ty)) → Analyzer
  | 0, a, _, _ => a
  | _ + 1, a, [], _ => a
  | fuel + 1, a, (v, se) :: rest, extra =>
      let a1 := if se = SigElem.tcode ∧ v.tyName = "Code" then
          (a_execute_code fuel a v extra).1
        else a
      let a2 := if v.isInterpreterType ∧ a1.unevaluatedInterpreterTokens.contains v then
          { a1 with unevaluatedInterpreterTokens := a1.unevaluatedInterpreterTokens.erase v }
        else a1
      a_case_codes fuel a2 rest extra

/-- `Analyzer.execute_single` (lines 132-323). -/
def a_execute_single : Nat → Analyzer → Ty → Analyzer × Ty
  | 0, a, _ => (a, .nothing)
  | fuel + 1, a, stmt =>
      let bt := stmt.baseTokens
      let ending := stmt.endingStr ≠ ""
      match bt with
      | [] => (a, .nothing)
      | bt0 :: _ =>
        if bt0.kwValue == some "#define" then
          let a1 :=
            if bt.length < 2 then
              a.addException (.perror "#define must have at least one argument")
            else if bt.length = 2 then
              { a with defines := insertAssoc a.defines ((bt.getD 1 .nothing).render) .nothing }
            else if bt.length = 3 then
              { a with defines :=
                  (insertAssoc a.defines ((bt.getD 1 .nothing).render)
                    (bt.getD 2 .nothing)) }
            else
              { a with defines :=
                  (insertAssoc a.defines ((bt.getD 1 .nothing).render)
                    (.statement (bt.drop 3) "" false)) }
          (a1, .nothing)
        else if bt0.kwValue == some "#include" then
          let a1 :=
            if bt.length ≠ 2 ∨ (bt.getD 1 .nothing).tyName ≠ "String" then
              a.addException (.perror "Wrong syntax for #include")
            else a
          (a1, .nothing)
        else if (match bt0.kwValue with
                 | some s => PREPROCESSORS.contains s
                 | none => false) then
          (a, .nothing)
        else if bt.length = 2 ∧ bt0 = .keyword "private" then
          let q := a_execute_token fuel a (bt.getD 1 .nothing)
          let a1 := q.1
          match q.2 with
          | .strLit s => (a1.add_privates [.strLit s], .nothing)
          | .arr ts =>
              let q2 := a_value fuel a1 (.arr ts)
              let vs := match q2.2 with | .arr es => es | _ => []
              (q2.1.add_privates vs, .nothing)
          | .varT n =>
              let outcome := Ty.privateType (.varT n)
              let a2 := a1.add_privates [.strLit ("\"" ++ n ++ "\"")]
              ({ a2 with privates := a2.privates ++ [outcome] }, outcome)
          | _ => (a1.addException (.perror "`private` used incorrectly"), .nothing)
        else if bt.length = 3 ∧ (bt.getD 1 .nothing) = .keyword "=" then
          let q := a_execute_token fuel a bt0
          let lp : Analyzer × Ty :=
            match q.2 with
            | .privateType v =>
                ({ q.1 with privates := q.1.privates.erase (.privateType v) }, v)
            | _ => (q.1, get_variable bt0)
          let qr := a_value fuel lp.1 (bt.getD 2 .nothing)
          match lp.2 with
          | .varT n =>
              (assignWarned qr n, if ¬ending then qr.2 else .nothing)
          | _ =>
              (qr.1.addException (.perror "lhs of assignment operator must be a variable"),
                .nothing)
        else if bt.length = 1 ∧ (bt0.tyName = "Variable" ∨ bt0.tyName = "Array") then
          a_execute_token fuel a bt0
        else if bt.length = 2 ∧
            ((bt0.tyName = "Variable" ∧ isGlobalName bt0.render) ∨
              isUpperStr bt0.render ∨ (a.defines.lookup bt0.render).isSome) ∧
            (bt.getD 1 .nothing).isParenStatement then
          (a, .nothing)
        else
          let q := a_eval_values fuel a bt
          let a1 := q.1
          let values := q.2.2
          let possible := EXPRESSIONS.filter
            (fun e => values.any (fun v => v.kwValue == some (sigKeyword e)))
          let caseFound := possible.find? (fun e => sigLooseMatch e values)
          let r : Analyzer × Ty :=
            match caseFound with
            | some cf =>
                let outcome1 :=
                  if sigStrictMatch cf values then Ty.defaultOfTyName cf.returnTyName
                  else if possible.length = 1 ∧ cf.returnTyName ≠ "" then
                    Ty.defaultOfTyName cf.returnTyName
                  else .nothing
                let extra := caseExtraScope cf values
                let a3 := a_case_codes fuel a1 (values.zip cf.sig) extra
                (a3, outcome1)
            | none =>
                if values.length = 1 then
                  let v0 := values.headD .nothing
                  let a2 := if ¬v0.isType then
                      a1.addException (.perror ("\"" ++ stmt.render ++
                        "\" is syntactically incorrect (missing ;?)"))
                    else a1
                  (a2, v0)
                else if (match bt0 with | .varT n => isGlobalName n | _ => false) then
                  (a1, .nothing)
                else if possible.length > 0 then
                  let first := possible.headD ⟨[], ""⟩
                  let msg :=
                    if first.sig.length = 2 then
                      "Unary operator \"" ++ sigKeyword first ++
                        "\" only accepts argument of types [" ++
                        joinComma (possible.map (fun e => sigElemTypeName (e.sig.getD 1 .tcode))) ++
                        "] (rhs is " ++ (values.getD 1 Ty.nothing).tyName ++ ")"
                    else
                      -- the modelled database has no binary entries; their
                      -- message tail (lines 287-301) is therefore dead code
                      "Binary operator \"" ++ sigKeyword first ++ "\" arguments must be []"
                  (a1.addException (.perror msg), .nothing)
                else
                  (a1.addException
                    (.perror "statement is syntactically incorrect (missing ;?)"), .nothing)
          let aU := if r.2.isInterpreterType then
              { r.1 with unevaluatedInterpreterTokens :=
                  r.1.unevaluatedInterpreterTokens ++ [r.2] }
            else r.1
          if ending then (aU, .nothing) else (aU, r.2)

end

/-- `analyze(statement)` (analyser.py lines 326-340): run a parsed
statement tree as a `File` on a fresh analyser, seeding `_this`, and return
the analyser with its collected diagnostics. -/
def analyze (fuel : Nat) (stmt : Ty) : Analyzer :=
  (a_execute_code fuel Analyzer.fresh (.file stmt.innerTokens)
    (some [("_this", .nothing)])).1

/-! ### Scope-store lemmas -/

/-- Appending a fresh binding at the end makes its key found. -/
theorem lookup_append_isSome (l : List (String × Ty)) (k : String) (v : Ty) :
    ((l ++ [(k, v)]).lookup k).isSome = true := by
  induction l with
  | nil => simp [List.lookup]
  | cons p rest ih =>
      cases hp : (k == p.1) with
      | true => simp [List.lookup, hp]
      | false =>
          rw [List.cons_append]
          simp [List.lookup, hp, ih]

/-- `lookup` after updating the entries of one key in place. -/
theorem lookup_map_update {β : Type} (l : List (String × β)) (k : String) (x : β) :
    (l.map (fun p => if p.1 = k then (p.1, x) else p)).lookup k =
      (l.lookup k).map (fun _ => x) := by
  induction l with
  | nil => rfl
  | cons p rest ih =>
      obtain ⟨pk, pv⟩ := p
      by_cases h : pk = k
      · subst h
        simp only [List.map_cons, if_true, eq_self_iff_true]
        simp [List.lookup]
      · have hk : (k == pk) = false := by
          simpa using fun e => h e.symm
        simp only [List.map_cons]
        rw [if_neg h]
        simp [List.lookup, hk, ih]

/-- A scope binding none of whose keys is the name yields no find hit. -/
theorem find_none_of_any_false (sc : Scope) (n : String)
    (h : sc.any (fun p => p.1 == n) = false) :
    sc.find? (fun p => p.1 == n) = none := by
  induction sc with
  | nil => rfl
  | cons p rest ih =>
      simp only [List.any_cons, Bool.or_eq_false_iff] at h
      rw [List.find?_cons_of_neg _ (by simp [h.1])]
      exact ih h.2

/-- The in-place update of `scopeSetVar` is found with the new value. -/
theorem find_map_update_snd (sc : Scope) (n : String) (v : Ty)
    (h : sc.any (fun p => p.1 == n) = true) :
    ((sc.map (fun p => if p.1 == n then (p.1, v) else p)).find?
        (fun p => p.1 == n)).map Prod.snd = some v := by
  induction sc with
  | nil => simp at h
  | cons p rest ih =>
      simp only [List.map_cons]
      cases hp : (p.1 == n) with
      | true =>
          rw [if_pos rfl]
          rw [List.find?_cons_of_pos _ (by simpa using hp)]
          simp
      | false =>
          rw [if_neg (by simp)]
          rw [List.find?_cons_of_neg _ (by simp [hp])]
          simp only [List.any_cons, hp, Bool.false_or] at h
          exact ih h

/-- Writing a name into a scope makes it readable with the written value. -/
theorem scopeGetVar_setVar (sc : Scope) (n : String) (v : Ty) :
    scopeGetVar (scopeSetVar sc n v) n = v := by
  unfold scopeSetVar scopeGetVar
  cases h : sc.any (fun p => p.1 == n) with
  | true =>
      rw [if_pos rfl, find_map_update_snd sc n v h]
      rfl
  | false =>
      rw [if_neg (by simp), List.find?_append, find_none_of_any_false sc n h]
      simp [List.find?]

/-- Writing a name into a scope makes the scope bind it. -/
theorem scopeHasVar_setVar (sc : Scope) (n : String) (v : Ty) :
    scopeHasVar (scopeSetVar sc n v) n = true := by
  unfold scopeSetVar scopeHasVar
  by_cases h : sc.any (fun p => p.1 == n)
  · rw [if_pos h]
    rw [List.any_eq_true] at h
    obtain ⟨hp, hpm, hpn⟩ := h
    refine List.any_eq_true.mpr ⟨?_, ?_⟩
    · exact if hp.1 == n then (hp.1, v) else hp
    · exact ⟨List.mem_map_of_mem _ hpm, by simp [hpn]⟩
  · rw [if_neg h]
    simp

/-- A resolved scope level is a real index of the scope stack. -/
theorem scopeLevelAux_lt (scs : List Scope) (n : String) (i : Nat)
    (h : scopeLevelAux scs n = some i) : i < scs.length := by
  induction scs generalizing i with
  | nil => simp [scopeLevelAux] at h
  | cons sc rest ih =>
      unfold scopeLevelAux at h
      cases hr : scopeLevelAux rest n with
      | some j =>
          rw [hr] at h
          obtain rfl : j + 1 = i := by simpa using h
          simpa using Nat.succ_lt_succ (ih j hr)
      | none =>
          rw [hr] at h
          cases hh : scopeHasVar sc n with
          | true =>
              rw [hh] at h
              obtain rfl : (0 : Nat) = i := by simpa using h
              simp
          | false => rw [hh] at h; simp at h

/-- Writing at the resolved level keeps the resolved level. -/
theorem scopeLevelAux_setScopeAt_some (scs : List Scope) (n : String) (v : Ty) (i : Nat)
    (h : scopeLevelAux scs n = some i) :
    scopeLevelAux (setScopeAt scs i n v) n = some i := by
  induction scs generalizing i with
  | nil => simp [scopeLevelAux] at h
  | cons sc rest ih =>
      unfold scopeLevelAux at h
      cases hr : scopeLevelAux rest n with
      | some j =>
          rw [hr] at h
          obtain rfl : j + 1 = i := by simpa using h
          show scopeLevelAux (sc :: setScopeAt rest j n v) n = some (j + 1)
          unfold scopeLevelAux
          rw [ih j hr]
      | none =>
          rw [hr] at h
          cases hh : scopeHasVar sc n with
          | true =>
              rw [hh] at h
              obtain rfl : (0 : Nat) = i := by simpa using h
              show scopeLevelAux (scopeSetVar sc n v :: rest) n = some 0
              unfold scopeLevelAux
              rw [hr, scopeHasVar_setVar]
              simp
          | false => rw [hh] at h; simp at h

/-- Writing an unbound name at level 0 makes level 0 resolve. -/
theorem scopeLevelAux_setScopeAt_of_unbound (scs : List Scope) (n : String) (v : Ty)
    (hne : scs ≠ []) (h : scopeLevelAux scs n = none) :
    scopeLevelAux (setScopeAt scs 0 n v) n = some 0 := by
  cases scs with
  | nil => exact absurd rfl hne
  | cons sc rest =>
      unfold scopeLevelAux at h
      cases hr : scopeLevelAux rest n with
      | some j => rw [hr] at h; simp at h
      | none =>
          show scopeLevelAux (scopeSetVar sc n v :: rest) n = some 0
          unfold scopeLevelAux
          rw [hr, scopeHasVar_setVar]
          simp

/-- Indexing the stack after an in-place write at that index. -/
theorem getD_setScopeAt (scs : List Scope) (i : Nat) (n : String) (v : Ty)
    (h : i < scs.length) :
    (setScopeAt scs i n v).getD i [] = scopeSetVar (scs.getD i []) n v := by
  induction scs generalizing i with
  | nil => simp at h
  | cons sc rest ih =>
      cases i with
      | zero => rfl
      | succ j =>
          show (setScopeAt rest j n v).getD j [] = scopeSetVar (rest.getD j []) n v
          exact ih j (by simpa using Nat.lt_of_succ_lt_succ h)

/-- Replacing the current namespace scope stack is transparent when the
current namespace is registered. -/
theorem curScopes_setCurScopes (a : Analyzer) (scs : List Scope)
    (h : (a.namespaces.lookup a.currentNamespace).isSome = true) :
    (a.setCurScopes scs).curScopes = scs := by
  unfold Analyzer.setCurScopes Analyzer.curScopes
  simp only
  rw [lookup_map_update]
  cases hl : a.namespaces.lookup a.currentNamespace with
  | none => rw [hl] at h; simp at h
  | some s => simp

/-- `readVar` after `writeVar` of the same name reads the written value. -/
theorem readVar_writeVar (a : Analyzer) (n : String) (v : Ty)
    (hns : (a.namespaces.lookup a.currentNamespace).isSome = true)
    (hne : a.curScopes ≠ []) :
    (a.writeVar n v).readVar n = v := by
  unfold Analyzer.readVar Analyzer.getScopeLevel Analyzer.writeVar
  simp only [Analyzer.getScopeLevel, curScopes_setCurScopes _ _ hns]
  cases hl : scopeLevelAux a.curScopes n with
  | some i =>
      rw [scopeLevelAux_setScopeAt_some _ _ _ _ (by rw [hl]; rfl)]
      simp only [Option.getD_some]
      rw [getD_setScopeAt _ _ _ _ (scopeLevelAux_lt _ _ _ hl)]
      exact scopeGetVar_setVar _ _ _
  | none =>
      simp only [Option.getD_none]
      rw [scopeLevelAux_setScopeAt_of_unbound _ _ _ hne (by rw [hl])]
      simp only [Option.getD_some]
      rw [getD_setScopeAt _ _ _ _ (List.length_pos.mpr hne)]
      exact scopeGetVar_setVar _ _ _

/-- The assignment branch of `execute_single` (analyser.py lines 190-207):
when no macro is registered for the target name, `n = rhs;` resolves the
left-hand side to the variable itself, evaluates the right-hand side,
performs the widened scope write with the scope-visibility check, and
produces `Nothing` as outcome because of the ending `;`. -/
theorem execute_single_assign (k : Nat) (a : Analyzer) (n : String) (rhs : Ty)
    (hd : a.defines.lookup n = none) (hp : rhs.isParserType = false) :
    a_execute_single (k + 2) a (assignStmt n rhs) =
      (assignWarned (a_value (k + 1) a rhs) n, Ty.nothing) := by
  have e1 : a_execute_token (k + 1) a (.varT n) = (a, .varT n) := by
    simp only [a_execute_token, Ty.render, hd]
  have hbt : (Ty.statement [.varT n, .keyword "=", rhs] ";" false).baseTokens
      = [.varT n, .keyword "=", rhs] := by
    show List.filter (fun t => !t.isParserType) [.varT n, .keyword "=", rhs]
      = [.varT n, .keyword "=", rhs]
    rw [List.filter_cons, List.filter_cons, List.filter_cons, hp]
    simp [Ty.isParserType]
  show a_execute_single ((k + 1) + 1) a (assignStmt n rhs) = _
  simp only [assignStmt, a_execute_single, hbt, Ty.endingStr, Ty.kwValue, e1,
    get_variable]
  simp [e1]

/-- `readVar` ignores the diagnostics list. -/
theorem readVar_addException (a : Analyzer) (d : Diag) (n : String) :
    (a.addException d).readVar n = a.readVar n := rfl

/-- `addException` appends exactly one diagnostic. -/
theorem exceptions_addException (a : Analyzer) (d : Diag) :
    (a.addException d).exceptions = a.exceptions ++ [d] := rfl

/-- `writeVar` touches only the namespaces. -/
theorem exceptions_writeVar (a : Analyzer) (n : String) (v : Ty) :
    (a.writeVar n v).exceptions = a.exceptions := rfl

/-- `writeVar` keeps the pending-private queue. -/
theorem privates_writeVar (a : Analyzer) (n : String) (v : Ty) :
    (a.writeVar n v).privates = a.privates := rfl

/-- `addException` keeps the pending-private queue. -/
theorem privates_addException (a : Analyzer) (d : Diag) :
    (a.addException d).privates = a.privates := rfl

/-! ### The analysed claim programs -/

/-- `_c = \x7b _x = 1; \x7d;` — a `Code` value assigned but never called. -/
def deferredCodeProgram : Ty := .statement
  [.statement [.varT "_c", .space, .keyword "=", .space,
     .code [.statement [.varT "_x", .space, .keyword "=", .space, .number 1] ";" false]] ";" false] "" false

/-- `call \x7b X = 1; \x7d;` — a global-looking assignment inside a nested
code block. -/
def nestedGlobalAssignProgram : Ty := .statement
  [.statement [.keyword "call", .space,
    .code [.statement [.varT "X", .space, .keyword "=", .space, .number 1] ";" false]] ";" false] "" false

/-- `call \x7b _x = 1; \x7d;` — a local-looking assignment inside a nested
code block, not declared private. -/
def nestedLocalAssignProgram : Ty := .statement
  [.statement [.keyword "call", .space,
    .code [.statement [.varT "_x", .space, .keyword "=", .space, .number 1] ";" false]] ";" false] "" false

/-- `call \x7b private "_x"; _x = 1; \x7d;` — the same local assignment
preceded by a `private` declaration. -/
def nestedPrivateAssignProgram : Ty := .statement
  [.statement [.keyword "call", .space,
    .code [.statement [.keyword "private", .space, .strLit "\"_x\""] ";" false,
           .statement [.varT "_x", .space, .keyword "=", .space, .number 1] ";" false]] ";" false] "" false

/-- `private "_a"; _a = 1;`. -/
def privateStringProgram : Ty := .statement
  [.statement [.keyword "private", .space, .strLit "\"_a\""] ";" false,
   .statement [.varT "_a", .space, .keyword "=", .space, .number 1] ";" false] "" false

/-- `private _b;` with no later assignment. -/
def privateBareVarProgram : Ty := .statement
  [.statement [.keyword "private", .space, .varT "_b"] ";" false] "" false

/-- `call \x7b1\x7d; _y = \x7b1\x7d;` — a `Code` body executed by `call`
and then produced again as a value. -/
def callTwoCodesProgram : Ty := .statement
  [.statement [.keyword "call", .space, .code [.statement [.number 1] "" false]] ";" false,
   .statement [.varT "_y", .space, .keyword "=", .space,
     .code [.statement [.number 1] "" false]] ";" false] "" false

/-- `call \x7b1\x7d;` — a `Code` body executed once and never re-produced. -/
def callOnceProgram : Ty := .statement
  [.statement [.keyword "call", .space, .code [.statement [.number 1] "" false]] ";" false] "" false

/-- C4.  For every assignment `n = rhs;` with no macro registered for `n`:
the target scope's recorded value for `n` becomes a fresh default instance
of the widened type — `Nothing` when a previously recorded type conflicts
with the evaluated right-hand side's type, the right-hand side's type when
the recorded type was `Nothing` or equal — and the only diagnostic the
assignment itself can append is the scope-visibility warning, never a
type-mismatch error. -/
theorem C4_thm (k : Nat) (a : Analyzer) (n : String) (rhs : Ty)
    (hd : a.defines.lookup n = none) (hp : rhs.isParserType = false)
    (hns : (((a_value (k + 1) a rhs).1.namespaces.lookup
        (a_value (k + 1) a rhs).1.currentNamespace)).isSome = true)
    (hne : (a_value (k + 1) a rhs).1.curScopes ≠ []) :
    (a_execute_single (k + 2) a (assignStmt n rhs)).1.readVar n =
      Ty.defaultOfTyName (widenTyName
        ((a_value (k + 1) a rhs).1.readVar n).tyName
        (a_value (k + 1) a rhs).2.tyName) ∧
    (a_execute_single (k + 2) a (assignStmt n rhs)).1.exceptions =
      (a_value (k + 1) a rhs).1.exceptions ++
        (if (a_value (k + 1) a rhs).1.getScopeLevel n = 0 ∧ ¬isGlobalName n then
          [Diag.warning ("Local variable \"" ++ n ++
            "\" assigned to an outer scope (not private)")]
        else []) := by
  rw [execute_single_assign k a n rhs hd hp]
  unfold assignWarned
  by_cases hw : (a_value (k + 1) a rhs).1.getScopeLevel n = 0 ∧ ¬isGlobalName n
  · simp only [if_pos hw]
    refine ⟨?_, ?_⟩
    · rw [readVar_addException]
      unfold assignWrite
      exact readVar_writeVar _ _ _ hns hne
    · rw [exceptions_addException]
      unfold assignWrite
      rw [exceptions_writeVar]
  · simp only [if_neg hw]
    refine ⟨?_, ?_⟩
    · unfold assignWrite
      exact readVar_writeVar _ _ _ hns hne
    · unfold assignWrite
      rw [exceptions_writeVar]
      simp

/-- Witness for C4 at `_v = 1;` on a fresh analyser. -/
theorem C4_thm_witness :
    Analyzer.fresh.defines.lookup "_v" = none ∧
    (Ty.number 1).isParserType = false ∧
    (((a_value 1 Analyzer.fresh (.number 1)).1.namespaces.lookup
        (a_value 1 Analyzer.fresh (.number 1)).1.currentNamespace)).isSome = true ∧
    (a_value 1 Analyzer.fresh (.number 1)).1.curScopes ≠ [] ∧
    ((a_execute_single 2 Analyzer.fresh (assignStmt "_v" (.number 1))).1.readVar "_v" =
        Ty.defaultOfTyName (widenTyName
          ((a_value 1 Analyzer.fresh (.number 1)).1.readVar "_v").tyName
          (a_value 1 Analyzer.fresh (.number 1)).2.tyName) ∧
      (a_execute_single 2 Analyzer.fresh (assignStmt "_v" (.number 1))).1.exceptions =
        (a_value 1 Analyzer.fresh (.number 1)).1.exceptions ++
          (if (a_value 1 Analyzer.fresh (.number 1)).1.getScopeLevel "_v" = 0 ∧
              ¬isGlobalName "_v" then
            [Diag.warning ("Local variable \"" ++ "_v" ++
              "\" assigned to an outer scope (not private)")]
          else [])) :=
  ⟨by decide, by decide, by decide, by decide,
   C4_thm 0 Analyzer.fresh "_v" (.number 1) (by decide) (by decide) (by decide)
     (by decide)⟩

/-- C3 counterexample: contrary to the claim, the assignment to the
global-looking name `X` inside the nested code block of
`call \x7b X = 1; \x7d;` emits no scope-visibility warning at all — the
whole analysis produces zero diagnostics. -/
theorem C3_counterexample :
    (analyze 30 nestedGlobalAssignProgram).exceptions = [] := by
  decide!

/-- C3 (amended).  The scope-visibility warning of an assignment is
governed by `lvl == 0 and not lhs.is_global`: assigning to a global-looking
name never warns, at any nesting depth — contrary to the claim's "exactly
one warning" — while assigning to an undeclared local-looking name inside a
called code block warns exactly once, and declaring it `private` first
registers it in the block's own scope and suppresses the warning. -/
theorem C3_amended :
    (∀ (k : Nat) (a : Analyzer) (n : String) (rhs : Ty),
        a.defines.lookup n = none → rhs.isParserType = false →
        isGlobalName n = true →
        (a_execute_single (k + 2) a (assignStmt n rhs)).1.exceptions =
          (a_value (k + 1) a rhs).1.exceptions) ∧
    (analyze 30 nestedLocalAssignProgram).exceptions =
      [Diag.warning "Local variable \"_x\" assigned to an outer scope (not private)"] ∧
    (analyze 30 nestedPrivateAssignProgram).exceptions = [] := by
  refine ⟨?_, by decide!, by decide!⟩
  intro k a n rhs hd hp hg
  rw [execute_single_assign k a n rhs hd hp]
  show (assignWarned (a_value (k + 1) a rhs) n).exceptions = _
  unfold assignWarned
  rw [if_neg (by simp [hg])]
  unfold assignWrite
  rw [exceptions_writeVar]

/-- Witness for the general clause of C3 (amended) at `X = 1;` on a fresh
analyser. -/
theorem C3_amended_witness :
    Analyzer.fresh.defines.lookup "X" = none ∧
    (Ty.number 1).isParserType = false ∧
    isGlobalName "X" = true ∧
    (a_execute_single 2 Analyzer.fresh (assignStmt "X" (.number 1))).1.exceptions =
      (a_value 1 Analyzer.fresh (.number 1)).1.exceptions :=
  ⟨by decide, by decide, by decide,
   C3_amended.1 0 Analyzer.fresh "X" (.number 1) (by decide) (by decide) (by decide)⟩

/-- The analyser state after `private _z;` on a fresh analyser: `_z` is
registered in the scope with the unknown value and a `PrivateType`
placeholder is queued as pending. -/
def privQueuedState : Analyzer :=
  { Analyzer.fresh with
      namespaces := [("missionnamespace", [[("_z", Ty.nothing)]])],
      privates := [.privateType (.varT "_z")] }

/-- C5.  `private "_a"; _a = 1;` produces no diagnostics while
`private _b;` alone produces exactly the one pending-private report at end
of file; in general `private <variable>` queues a `PrivateType` placeholder
(also registering the name in the current scope), and an assignment whose
left-hand side resolves to that placeholder erases it from the pending
queue, which no other part of the assignment touches. -/
theorem C5_thm :
    (analyze 30 privateStringProgram).exceptions = [] ∧
    (analyze 30 privateBareVarProgram).exceptions =
      [Diag.warning "private argument must be a string."] ∧
    (∀ (k : Nat) (a : Analyzer) (n : String),
        a.defines.lookup n = none →
        a_execute_single (k + 2) a (.statement [.keyword "private", .varT n] ";" false) =
          ({ a.add_privates [.strLit ("\"" ++ n ++ "\"")] with privates :=
              (a.add_privates [.strLit ("\"" ++ n ++ "\"")]).privates ++
                [.privateType (.varT n)] },
            .privateType (.varT n))) ∧
    (∀ (k : Nat) (a a1 : Analyzer) (bt0 rhs : Ty) (m : String),
        bt0.kwValue = none → bt0.isParserType = false → rhs.isParserType = false →
        a_execute_token (k + 1) a bt0 = (a1, .privateType (.varT m)) →
        (a_execute_single (k + 2) a (.statement [bt0, .keyword "=", rhs] ";" false)).1.privates =
          (a_value (k + 1) { a1 with privates :=
              (a1.privates.erase (.privateType (.varT m))) } rhs).1.privates) := by
  refine ⟨by decide!, by decide!, ?_, ?_⟩
  · intro k a n hd
    have e1 : a_execute_token (k + 1) a (.varT n) = (a, .varT n) := by
      simp only [a_execute_token, Ty.render, hd]
    show a_execute_single ((k + 1) + 1) a _ = _
    simp only [a_execute_single, Ty.baseTokens, Ty.endingStr, Ty.kwValue, e1]
    simp [Ty.isParserType, PREPROCESSORS, e1]
  · intro k a a1 bt0 rhs m hkw hbp hp hq
    have hbt : (Ty.statement [bt0, .keyword "=", rhs] ";" false).baseTokens
        = [bt0, .keyword "=", rhs] := by
      show List.filter (fun t => !t.isParserType) [bt0, .keyword "=", rhs] = _
      rw [List.filter_cons, List.filter_cons, List.filter_cons, hp, hbp]
      simp [Ty.isParserType]
    have base : a_execute_single ((k + 1) + 1) a
          (.statement [bt0, .keyword "=", rhs] ";" false)
        = (assignWarned (a_value (k + 1)
            { a1 with privates := (a1.privates.erase (.privateType (.varT m))) } rhs) m,
           Ty.nothing) := by
      simp only [a_execute_single, hbt, Ty.endingStr, hkw, hq]
      simp [hkw, hq]
    show (a_execute_single ((k + 1) + 1) a _).1.privates = _
    rw [base]
    show (assignWarned (a_value (k + 1)
        { a1 with privates := (a1.privates.erase (.privateType (.varT m))) } rhs) m).privates = _
    unfold assignWarned
    by_cases hw : (a_value (k + 1)
        { a1 with privates := (a1.privates.erase (.privateType (.varT m))) } rhs).1.getScopeLevel m
          = 0 ∧ ¬isGlobalName m
    · rw [if_pos hw, privates_addException]
      unfold assignWrite
      rw [privates_writeVar]
    · rw [if_neg hw]
      unfold assignWrite
      rw [privates_writeVar]

/-- Witness for the general clauses of C5: queueing at `private _b;` and
removal at an assignment whose left-hand side is the statement
`private _z;`. -/
theorem C5_thm_witness :
    Analyzer.fresh.defines.lookup "_b" = none ∧
    (a_execute_single 2 Analyzer.fresh
        (.statement [.keyword "private", .varT "_b"] ";" false) =
      ({ Analyzer.fresh.add_privates [.strLit "\"_b\""] with privates :=
          (Analyzer.fresh.add_privates [.strLit "\"_b\""]).privates ++
            [.privateType (.varT "_b")] },
        .privateType (.varT "_b"))) ∧
    (Ty.statement [.keyword "private", .varT "_z"] ";" false).kwValue = none ∧
    (Ty.statement [.keyword "private", .varT "_z"] ";" false).isParserType = false ∧
    (Ty.number 1).isParserType = false ∧
    a_execute_token 3 Analyzer.fresh
        (.statement [.keyword "private", .varT "_z"] ";" false) =
      (privQueuedState, .privateType (.varT "_z")) ∧
    (a_execute_single 4 Analyzer.fresh
        (.statement [.statement [.keyword "private", .varT "_z"] ";" false,
          .keyword "=", .number 1] ";" false)).1.privates =
      (a_value 3 { privQueuedState with privates :=
          (privQueuedState.privates.erase (.privateType (.varT "_z"))) } (.number 1)).1.privates := by
  refine ⟨by decide, ?_, by decide, by decide, by decide, by decide!, ?_⟩
  · have h := C5_thm.2.2.1 0 Analyzer.fresh "_b" (by decide)
    exact h
  · have h := C5_thm.2.2.2 2 Analyzer.fresh privQueuedState
      (.statement [.keyword "private", .varT "_z"] ";" false) (.number 1) "_z"
      (by decide) (by decide) (by decide) (by decide!)
    exact h

/-- The tracking step of `value` leaves the produced `Code` key present in
the unexecuted set. -/
theorem trackCode_lookup (r : Analyzer × Ty) (cts : List Ty)
    (h : (trackCode r).2 = .code cts) :
    (((trackCode r).1.unexecutedCodes.lookup (Ty.code cts).render)).isSome = true := by
  obtain ⟨ra, rv⟩ := r
  cases rv <;> try (simp only [trackCode] at h; exact absurd h (by simp))
  rename_i c
  simp only [trackCode] at h ⊢
  by_cases hl : ((ra.unexecutedCodes.lookup (Ty.code c).render)).isNone = true
  · rw [if_pos hl] at h ⊢
    obtain rfl : c = cts := by simpa using h
    exact lookup_append_isSome _ _ _
  · rw [if_neg hl] at h ⊢
    obtain rfl : c = cts := by simpa using h
    cases ho : ra.unexecutedCodes.lookup (Ty.code c).render with
    | none => exact absurd (by rw [ho]; rfl) hl
    | some v => rfl

/-- C9 counterexample: after analysing `call \x7b1\x7d; _y = \x7b1\x7d;`
the code `\x7b1\x7d` is tracked as unexecuted and as executed at the same
time — `value` consults only the unexecuted set when registering a produced
`Code`, so a body that was executed (and therefore removed from the
unexecuted set) is re-registered as unexecuted when its text is produced
again, while it also stays recorded as executed. -/
theorem C9_counterexample :
    ((analyze 30 callTwoCodesProgram).unexecutedCodes.lookup "\x7b1\x7d").isSome = true ∧
    ((analyze 30 callTwoCodesProgram).executedCodes.lookup "\x7b1\x7d").isSome = true := by
  exact ⟨by decide!, by decide!⟩

/-- C9 (amended).  Whenever `value` produces a `Code` value, that code is
tracked as unexecuted under its canonical string key in the resulting
analyser (it is added unless the key is already present — only the
unexecuted set is consulted, not the executed one); executing a code moves
its key from the unexecuted set to the executed set, as in
`call \x7b1\x7d;` where the body ends up recorded as executed and the
unexecuted set is empty.  The two sets are nevertheless not mutually
exclusive when an executed body's text is produced again. -/
theorem C9_amended :
    (∀ (fuel : Nat) (a : Analyzer) (token : Ty) (cts : List Ty),
        (a_value fuel a token).2 = .code cts →
        (((a_value fuel a token).1.unexecutedCodes.lookup
            (Ty.code cts).render)).isSome = true) ∧
    (analyze 30 callOnceProgram).unexecutedCodes = [] ∧
    (analyze 30 callOnceProgram).executedCodes.lookup "\x7b1\x7d" =
      some (.code [.statement [.number 1] "" false]) := by
  refine ⟨?_, by decide!, by decide!⟩
  intro fuel a token cts h
  cases fuel with
  | zero => simp [a_value] at h
  | succ f =>
      simp only [a_value] at h ⊢
      exact trackCode_lookup _ _ h

/-- Witness for the general clause of C9 (amended): the literal `\x7b\x7d`
evaluated on a fresh analyser. -/
theorem C9_amended_witness :
    (a_value 1 Analyzer.fresh (.code [])).2 = .code [] ∧
    (((a_value 1 Analyzer.fresh (.code [])).1.unexecutedCodes.lookup
        (Ty.code []).render)).isSome = true :=
  ⟨by decide, C9_amended.1 1 Analyzer.fresh (.code []) [] (by decide)⟩

/-- C1.  Deferred end-of-file execution is isolated: running a
still-unexecuted `Code` in the fresh child analyser changes nothing in the
parent analyser except its diagnostics list, to which the child's collected
diagnostics are appended.  Concretely, for `_c = \x7b _x = 1; \x7d;` the
final namespace state binds only `_c` — the `_x` assigned inside the
deferred code does not leak into the outer scope — while the deferred
body's scope warning for `_x` does surface in the parent's diagnostics
after the parent's own warning for `_c`. -/
theorem C1_thm :
    (∀ (fuel : Nat) (a : Analyzer) (cd : Ty), ∃ ds : List Diag,
        a_execute_unexecuted_code fuel a cd =
          { a with exceptions := a.exceptions ++ ds }) ∧
    (analyze 30 deferredCodeProgram).namespaces =
      [("missionnamespace", [[("_c", Ty.code [])]])] ∧
    (analyze 30 deferredCodeProgram).exceptions =
      [Diag.warning "Local variable \"_c\" assigned to an outer scope (not private)",
       Diag.warning "Local variable \"_x\" assigned to an outer scope (not private)"] := by
  refine ⟨?_, by decide!, by decide!⟩
  intro fuel a cd
  cases fuel with
  | zero =>
      refine ⟨[], ?_⟩
      simp [a_execute_unexecuted_code]
  | succ f =>
      exact ⟨_, rfl⟩

end SQF
